import Mathlib

/-!
Shallow embedding of the string-literal scanning and multi-tier match/patch
engine of tools/patch.py (functions normalize_newlines, escape_for_quote,
sanitize_triple_content, scan_string_literals, detect_block_spans,
apply_patch_advanced, patch_file_advanced and their helpers).

Conventions of the embedding:
* Python text is modelled as List Char; Python slicing s[a:b] is pySlice,
  str.find is pyFind, str.replace is strReplace (leftmost, non-overlapping).
* while-loops are mirrored by fuel-indexed recursions; every wrapper feeds
  a fuel that dominates the loop count (each iteration advances the index
  by at least one inside the range), so the wrapper computes exactly what
  the Python loop does, and everything reduces in the kernel.
* The optional external dependencies of the source file are parameters of
  the engine (structure Deps): the rapidfuzz scorer _fuzz.token_set_ratio
  (a float scorer, modelled as a rational-valued function), the semantic
  signature function from renpy_tools.utils.placeholder, and the
  placeholder-set mismatch test set(PH_RE.findall(en)) != set(PH_RE.findall(zh)).
  All theorems quantify over these parameters.
* apply_patch_advanced in Python returns (new_text, method, region); the
  embedding returns (new_text, method, token) with the selected token,
  from which the returned region is recovered as region_of_token of that
  token (that is literally how every return site of the source computes
  the region).  Method tags are an inductive type mirroring the source's
  method strings.
* The regular expressions _PY_BLOCK_RE, _LABEL_RE and _SCREEN_RE are
  mirrored by explicit character-list matchers (ASCII whitespace and word
  characters; the source relies on the same shapes).
-/

set_option maxRecDepth 10000

namespace Patch

/-- the single-quote character (written via its code point). -/
def SQ : Char := Char.ofNat 39

/-- Python s[a:b] for nonnegative clamped bounds. -/
def pySlice (s : List Char) (a b : Nat) : List Char := (s.take b).drop a

/-- does pat occur at the head of s (Python slice equality test helper). -/
def startsWith : List Char → List Char → Bool
  | [], _ => true
  | _ :: _, [] => false
  | p :: ps, c :: cs => p = c && startsWith ps cs

/-- does pat occur anywhere in s. -/
def occursB (pat : List Char) : List Char → Bool
  | [] => startsWith pat []
  | s@(_ :: rest) => startsWith pat s || occursB pat rest

/-- scan for the least index at which pat occurs; i is the index of the head
of the remaining list (Python str.find helper). -/
def pyFindAux (pat : List Char) : List Char → Nat → Option Nat
  | [], i => if startsWith pat [] then some i else none
  | s@(_ :: rest), i => if startsWith pat s then some i else pyFindAux pat rest (i + 1)

/-- Python text.find(pat): least occurrence index, none instead of -1. -/
def pyFind (text pat : List Char) : Option Nat := pyFindAux pat text 0

/-- Python text.find(pat, start) for nonempty pat and start within bounds. -/
def pyFindFrom (text pat : List Char) (start : Nat) : Option Nat :=
  (pyFindAux pat (text.drop start) 0).map (· + start)

/-- Python str.replace(pat, rep) (leftmost, non-overlapping), fuel-indexed;
an empty pat copies the text unchanged (the source never calls it so). -/
def replFuel (pat rep : List Char) : Nat → List Char → List Char
  | 0, _ => []
  | _ + 1, [] => []
  | fuel + 1, s@(c :: rest) =>
    if pat ≠ [] ∧ startsWith pat s then
      rep ++ replFuel pat rep fuel (s.drop pat.length)
    else
      c :: replFuel pat rep fuel rest

/-- Python s.replace(pat, rep): fuel s.length dominates the loop count. -/
def strReplace (s pat rep : List Char) : List Char := replFuel pat rep s.length s

/-- source line 139: s.replace(q, backslash + q). -/
def escape_for_quote (s q : List Char) : List Char := strReplace s q ('\\' :: q)

/-- source lines 142-145: break the closing triple inside the translation by
inserting a backslash before its third character. -/
def sanitize_triple_content (s triple_q : List Char) : List Char :=
  strReplace s triple_q (triple_q.take 2 ++ '\\' :: triple_q.drop 2)

/-- source lines 307-308: CRLF and CR to LF. -/
def normalize_newlines (s : List Char) : List Char :=
  strReplace (strReplace s ['\r', '\n'] ['\n']) ['\r'] ['\n']

/-- source lines 147-153 (_newline_positions): 0 plus every index just after
a newline character. -/
def nlPosAux : List Char → Nat → List Nat
  | [], _ => []
  | c :: rest, i => if c = '\n' then (i + 1) :: nlPosAux rest (i + 1) else nlPosAux rest (i + 1)

def newline_positions (text : List Char) : List Nat := 0 :: nlPosAux text 0

/-- source lines 155-165 (_line_from_index): binary search for the 1-based
line number of a character index.  lo and hi are integers exactly as in the
source (hi may become -1); list indexing in-bounds is mirrored by getD. -/
def lineFromIdxAux (ls : List Nat) (idx : Nat) : Nat → Int → Int → Nat
  | 0, _, _ => 1
  | fuel + 1, lo, hi =>
    if lo ≤ hi then
      let mid : Int := (lo + hi) / 2
      let v : Nat := ls.getD mid.toNat 0
      if v ≤ idx ∧ (mid + 1 = (ls.length : Int) ∨ idx < ls.getD (mid + 1).toNat 0) then
        (mid + 1).toNat
      else if idx < v then lineFromIdxAux ls idx fuel lo (mid - 1)
      else lineFromIdxAux ls idx fuel (mid + 1) hi
    else 1

def line_from_index (ls : List Nat) (idx : Nat) : Nat :=
  lineFromIdxAux ls idx (ls.length + 2) 0 ((ls.length : Int) - 1)

/-- source line 131: the Token namedtuple.  The Python field end is called
stop here (end is a Lean keyword); all other field names are the source's. -/
structure Token where
  start : Nat
  stop : Nat
  inner_start : Nat
  inner_end : Nat
  quote : List Char
  is_triple : Bool
  start_line : Nat
  end_line : Nat
deriving DecidableEq

def TRIPLE_QUOTES : List (List Char) := [[SQ, SQ, SQ], ['"', '"', '"']]

/-- inner loop of the triple-quote branch of scan_string_literals: the least
j at or after i with text[j:j+3] = q3. -/
def findTripleClose (text q3 : List Char) : Nat → Nat → Option Nat
  | 0, _ => none
  | fuel + 1, i =>
    if i < text.length then
      if pySlice text i (i + 3) = q3 then some i
      else findTripleClose text q3 fuel (i + 1)
    else none

/-- inner loop of the single/double-quote branch: backslash-escape tracking
scan for the closing quote (note: it does not stop at a newline). -/
def findSingleClose (text : List Char) (q : Char) : Nat → Nat → Bool → Option Nat
  | 0, _, _ => none
  | fuel + 1, i, escaped =>
    if h : i < text.length then
      let c := text.get ⟨i, h⟩
      if escaped then findSingleClose text q fuel (i + 1) false
      else if c = '\\' then findSingleClose text q fuel (i + 1) true
      else if c = q then some i
      else findSingleClose text q fuel (i + 1) false
    else none

/-- source lines 167-240 (scan_string_literals), main loop. -/
def scanAux (text : List Char) (ls : List Nat) : Nat → Nat → List Token
  | 0, _ => []
  | fuel + 1, i =>
    let n := text.length
    if h : i < n then
      let ch := text.get ⟨i, h⟩
      if ch = SQ ∨ ch = '"' then
        if i + 2 < n ∧ pySlice text i (i + 3) ∈ TRIPLE_QUOTES then
          let q := pySlice text i (i + 3)
          match findTripleClose text q (n + 1) (i + 3) with
          | some j =>
            { start := i, stop := j + 3, inner_start := i + 3, inner_end := j,
              quote := q, is_triple := true,
              start_line := line_from_index ls i,
              end_line := line_from_index ls (j + 3 - 1) } :: scanAux text ls fuel (j + 3)
          | none =>
            [{ start := i, stop := n, inner_start := i + 3, inner_end := n,
               quote := q, is_triple := true,
               start_line := line_from_index ls i,
               end_line := line_from_index ls (n - 1) }]
        else
          match findSingleClose text ch (n + 1) (i + 1) false with
          | some j =>
            { start := i, stop := j + 1, inner_start := i + 1, inner_end := j,
              quote := [ch], is_triple := false,
              start_line := line_from_index ls i,
              end_line := line_from_index ls i } :: scanAux text ls fuel (j + 1)
          | none =>
            [{ start := i, stop := n, inner_start := i + 1, inner_end := n,
               quote := [ch], is_triple := false,
               start_line := line_from_index ls i,
               end_line := line_from_index ls (n - 1) }]
      else scanAux text ls fuel (i + 1)
    else []

def scan_string_literals (text : List Char) : List Token :=
  scanAux text (newline_positions text) (text.length + 1) 0

/-! block-opener matchers, mirroring _PY_BLOCK_RE, _LABEL_RE, _SCREEN_RE
(ASCII whitespace and word characters). -/

def isPySpaceC (c : Char) : Bool :=
  c = ' ' ∨ c = '\t' ∨ c = Char.ofNat 11 ∨ c = Char.ofNat 12 ∨ c = '\r' ∨ c = '\n'

def isWordC (c : Char) : Bool :=
  ('a' ≤ c ∧ c ≤ 'z') ∨ ('A' ≤ c ∧ c ≤ 'Z') ∨ ('0' ≤ c ∧ c ≤ '9') ∨ c = '_'

def isAlphaUC (c : Char) : Bool :=
  ('a' ≤ c ∧ c ≤ 'z') ∨ ('A' ≤ c ∧ c ≤ 'Z') ∨ c = '_'

def dropSpaces (l : List Char) : List Char := l.dropWhile isPySpaceC

/-- tail matcher for the colon at end of an opener line. -/
def colonEnd (l : List Char) : Bool :=
  match dropSpaces l with
  | ':' :: rest => (dropSpaces rest).isEmpty
  | _ => false

def afterLit (lit l : List Char) : Option (List Char) :=
  if startsWith lit l then some (l.drop lit.length) else none

/-- one or more whitespace characters, greedily. -/
def spaces1 : List Char → Option (List Char)
  | c :: rest => if isPySpaceC c then some (dropSpaces rest) else none
  | [] => none

/-- one or more word characters, greedily. -/
def word1 : List Char → Option (List Char)
  | c :: rest => if isWordC c then some (rest.dropWhile isWordC) else none
  | [] => none

def optGroup (g : List Char → Option (List Char)) (l : List Char) : List Char :=
  match g l with
  | some r => r
  | none => l

def pyBlockMatch (l : List Char) : Bool :=
  let l0 := dropSpaces l
  match afterLit ['i', 'n', 'i', 't'] l0 with
  | some r =>
    (match spaces1 r with
     | some r2 =>
       (match afterLit ['p', 'y', 't', 'h', 'o', 'n'] r2 with
        | some r3 => colonEnd r3
        | none => false)
     | none => false)
  | none =>
    match afterLit ['p', 'y', 't', 'h', 'o', 'n'] l0 with
    | some r =>
      let r1 := optGroup (fun x => (spaces1 x).bind (afterLit ['e', 'a', 'r', 'l', 'y'])) r
      let r2 := optGroup (fun x => (spaces1 x).bind (afterLit ['h', 'i', 'd', 'e'])) r1
      let r3 := optGroup
        (fun x => (((spaces1 x).bind (afterLit ['i', 'n'])).bind spaces1).bind word1) r2
      colonEnd r3
    | none => false

def labelMatch (l : List Char) : Bool :=
  match afterLit ['l', 'a', 'b', 'e', 'l'] (dropSpaces l) with
  | some r =>
    (match spaces1 r with
     | some r2 =>
       (match r2 with
        | c :: rest => if isAlphaUC c then colonEnd (rest.dropWhile isWordC) else false
        | [] => false)
     | none => false)
  | none => false

def screenMatch (l : List Char) : Bool :=
  match afterLit ['s', 'c', 'r', 'e', 'e', 'n'] (dropSpaces l) with
  | some r =>
    (match spaces1 r with
     | some r2 =>
       (match r2 with
        | c :: rest =>
          if isAlphaUC c then
            (match rest.reverse.dropWhile isPySpaceC with
             | ':' :: _ => true
             | _ => false)
          else false
        | [] => false)
     | none => false)
  | none => false

/-- source lines 246-253 (_indent). -/
def indent : List Char → Nat
  | c :: rest => if c = ' ' ∨ c = '\t' then indent rest + 1 else 0
  | [] => 0

/-- Python l.strip() == empty. -/
def isBlank (l : List Char) : Bool := l.all isPySpaceC

/-- Python text.split on the newline character. -/
def splitNl : List Char → List (List Char)
  | [] => [[]]
  | c :: rest =>
    if c = '\n' then [] :: splitNl rest
    else
      match splitNl rest with
      | h :: t => (c :: h) :: t
      | [] => [[c]]

/-- inner loop of scan_with: consume block lines while blank or indented more
than the opener; returns the 0-based index of the first line after the block. -/
def consumeBlock (lines : List (List Char)) (base : Nat) : Nat → Nat → Nat
  | 0, j => j
  | fuel + 1, j =>
    if j < lines.length then
      let l2 := lines.getD j []
      if isBlank l2 then consumeBlock lines base fuel (j + 1)
      else if indent l2 ≤ base then j
      else consumeBlock lines base fuel (j + 1)
    else j

/-- source lines 264-286 (scan_with inside detect_block_spans): spans are
(opener line, last block line), 1-based inclusive. -/
def scanWithAux (matcher : List Char → Bool) (lines : List (List Char)) :
    Nat → Nat → List (Nat × Nat)
  | 0, _ => []
  | fuel + 1, i =>
    if i < lines.length then
      let ln := lines.getD i []
      if matcher ln then
        let base := indent ln
        let j := consumeBlock lines base (lines.length + 1) (i + 1)
        (i + 1, j) :: scanWithAux matcher lines fuel j
      else scanWithAux matcher lines fuel (i + 1)
    else []

def scan_with (matcher : List Char → Bool) (lines : List (List Char)) : List (Nat × Nat) :=
  scanWithAux matcher lines (lines.length + 1) 0

/-- source lines 255-290: returns (python spans, label spans, screen spans). -/
def detect_block_spans (text : List Char) :
    List (Nat × Nat) × List (Nat × Nat) × List (Nat × Nat) :=
  let lines := splitNl (normalize_newlines text)
  (scan_with pyBlockMatch lines, scan_with labelMatch lines, scan_with screenMatch lines)

inductive Region
  | python
  | screen
  | label
  | root
deriving DecidableEq

/-- source lines 292-296 (_line_in_spans). -/
def line_in_spans (line_no : Nat) (spans : List (Nat × Nat)) : Bool :=
  spans.any (fun ab => ab.1 ≤ line_no ∧ line_no ≤ ab.2)

/-- source lines 298-305 (_region_of_token): classification by the token's
start line, priority python then screen then label. -/
def region_of_token (t : Token) (py lb sc : List (Nat × Nat)) : Region :=
  if line_in_spans t.start_line py then Region.python
  else if line_in_spans t.start_line sc then Region.screen
  else if line_in_spans t.start_line lb then Region.label
  else Region.root

/-- method tags of apply_patch_advanced; each constructor mirrors one of the
method strings of the source (S1-line-idx, S1-line-exact, S2-nearby,
S3-anchors, S3-anchors-closest, S3.5-semantic, S4-unique, S5-replace-once,
S6-fuzzy-nearby(score)). -/
inductive Method
  | s1LineIdx
  | s1LineExact
  | s2Nearby
  | s3Anchors
  | s3AnchorsClosest
  | s35Semantic
  | s4Unique
  | s5ReplaceOnce
  | s6FuzzyNearby (score : ℚ)
deriving DecidableEq

/-- the two exceptional outcomes of apply_patch_advanced: PythonRegionMatch
(carrying the method tag) and ValueError not_found_or_ambiguous. -/
inductive PErr
  | pythonRegion (m : Method)
  | notFound
deriving DecidableEq

/-- optional external collaborators of the engine (see the file comment). -/
structure Deps where
  fz : Option (List Char → List Char → ℚ)
  sig : Option (List Char → List Char)
  phMismatch : List Char → List Char → Bool

/-- source lines 322-329 (replace_in_token). -/
def replace_in_token (text zh : List Char) (t : Token) : List Char :=
  let safe_zh := if t.is_triple then sanitize_triple_content zh t.quote
                 else escape_for_quote zh t.quote
  text.take t.inner_start ++ safe_zh ++ text.drop t.inner_end

/-- Python truthiness of an optional string hint. -/
def truthyS : Option (List Char) → Bool
  | none => false
  | some s => !s.isEmpty

/-- source lines 363-372: the anchor-bounded byte-offset interval. -/
def anchorInterval (text : List Char) (anchor_prev anchor_next : Option (List Char)) :
    Nat × Nat :=
  let start_idx :=
    match anchor_prev with
    | some ap =>
      if !ap.isEmpty then
        (match pyFind text ap with
         | some i => i + ap.length
         | none => 0)
      else 0
    | none => 0
  let end_idx :=
    match anchor_next with
    | some an =>
      if !an.isEmpty then
        (match pyFindFrom text an start_idx with
         | some j => j
         | none => text.length)
      else text.length
    | none => text.length
  (start_idx, end_idx)

def innerText (text : List Char) (t : Token) : List Char :=
  pySlice text t.inner_start t.inner_end

def innerNorm (text : List Char) (t : Token) : List Char :=
  normalize_newlines (innerText text t)

abbrev PRes := List Char × Method × Token

/-- the repeated accept-or-raise pattern of the source: raise
PythonRegionMatch when the selected token's region is python, otherwise
return the spliced text. -/
def acceptTok (text zh : List Char) (py lb sc : List (Nat × Nat)) (t : Token)
    (m : Method) : Except PErr PRes :=
  if region_of_token t py lb sc = Region.python then Except.error (PErr.pythonRegion m)
  else Except.ok (replace_in_token text zh t, m, t)

/-- S1 (source lines 331-348): exact (line, idx) hit, then unique exact
match on the hinted line range. -/
def tierS1 (text zh en_norm : List Char) (tokens : List Token)
    (py lb sc : List (Nat × Nat)) (line_hint idx_hint : Option Int) :
    Option (Except PErr PRes) :=
  match line_hint, idx_hint with
  | some lh, some ih =>
    let candidates := tokens.filter
      (fun t => ((t.start_line : Int) ≤ lh ∧ lh ≤ (t.end_line : Int) : Bool))
    let on_line := candidates.filter
      (fun t => (((t.start_line : Int) = lh ∧ lh = (t.end_line : Int) : Bool)))
    let first : Option (Except PErr PRes) :=
      if h : 0 ≤ ih ∧ ih.toNat < on_line.length then
        let t := on_line.get ⟨ih.toNat, h.2⟩
        if innerNorm text t = en_norm then some (acceptTok text zh py lb sc t Method.s1LineIdx)
        else none
      else none
    match first with
    | some r => some r
    | none =>
      match candidates.filter (fun t => innerNorm text t = en_norm) with
      | [t] => some (acceptTok text zh py lb sc t Method.s1LineExact)
      | _ => none
  | _, _ => none

/-- S2 (source lines 350-359): unique exact match in a 200-line midpoint
window around the line hint. -/
def tierS2 (text zh en_norm : List Char) (tokens : List Token)
    (py lb sc : List (Nat × Nat)) (line_hint : Option Int) :
    Option (Except PErr PRes) :=
  match line_hint with
  | some lh =>
    let nearby := tokens.filter
      (fun t => ((((t.start_line + t.end_line) / 2 : Nat) : Int) - lh).natAbs ≤ 200)
    (match nearby.filter (fun t => innerNorm text t = en_norm) with
     | [t] => some (acceptTok text zh py lb sc t Method.s2Nearby)
     | _ => none)
  | none => none

/-- Python min with a key function over a nonempty list: first minimum. -/
def pyMinList (key : Token → Nat) (x : Token) (l : List Token) : Token :=
  l.foldl (fun acc y => if key y < key acc then y else acc) x

/-- candidate tokens of the anchor tier: tokens overlapping the interval. -/
def anchorRegionTokens (tokens : List Token) (start_idx end_idx : Nat) : List Token :=
  tokens.filter (fun t => (t.start < end_idx ∧ start_idx < t.stop : Bool))

/-- the distance key used for the closest-to-midpoint tie-break. -/
def midKey (mid : Nat) (t : Token) : Nat :=
  ((((t.inner_start + t.inner_end) / 2 : Nat) : Int) - (mid : Int)).natAbs

/-- S3 and S3.5 (source lines 361-403): anchor-bounded interval, exact
unique or closest-to-midpoint, then semantic-signature unique. -/
def tierS3 (deps : Deps) (text zh en en_norm : List Char) (tokens : List Token)
    (py lb sc : List (Nat × Nat)) (anchor_prev anchor_next : Option (List Char)) :
    Option (Except PErr PRes) :=
  if truthyS anchor_prev ∨ truthyS anchor_next then
    let se := anchorInterval text anchor_prev anchor_next
    let region_tokens := anchorRegionTokens tokens se.1 se.2
    match region_tokens.filter (fun t => innerNorm text t = en_norm) with
    | [t] => some (acceptTok text zh py lb sc t Method.s3Anchors)
    | t1 :: t2 :: rest =>
      let mid := (se.1 + se.2) / 2
      let t := pyMinList (midKey mid) t1 (t2 :: rest)
      some (acceptTok text zh py lb sc t Method.s3AnchorsClosest)
    | [] =>
      match deps.sig with
      | some f =>
        (match region_tokens.filter (fun t => f (innerText text t) = f en) with
         | [t] => some (acceptTok text zh py lb sc t Method.s35Semantic)
         | _ => none)
      | none => none
  else none

/-- S4 (source lines 405-411): whole-file unique exact match. -/
def tierS4 (text zh en_norm : List Char) (tokens : List Token)
    (py lb sc : List (Nat × Nat)) : Option (Except PErr PRes) :=
  match tokens.filter (fun t => innerNorm text t = en_norm) with
  | [t] => some (acceptTok text zh py lb sc t Method.s4Unique)
  | _ => none

/-- source lines 415-424 (_tok_by_quote): per-quote-class exact candidates
outside python regions, paired with their region. -/
def tok_by_quote (text en_norm : List Char) (tokens : List Token)
    (py lb sc : List (Nat × Nat)) (q : List Char) (triple : Bool) :
    List (Token × Region) :=
  (tokens.filter
    (fun t => (t.quote = q ∧ t.is_triple = triple ∧ innerNorm text t = en_norm ∧
               region_of_token t py lb sc ≠ Region.python : Bool))).map
    (fun t => (t, region_of_token t py lb sc))

/-- S5 (source lines 413-445): quote-class-restricted unique replace-once,
triple classes first. -/
def tierS5 (text zh en_norm : List Char) (tokens : List Token)
    (py lb sc : List (Nat × Nat)) : Option (Except PErr PRes) :=
  match tok_by_quote text en_norm tokens py lb sc ['"', '"', '"'] true with
  | [(t, _)] =>
    some (Except.ok
      (text.take t.inner_start ++ sanitize_triple_content zh ['"', '"', '"'] ++
        text.drop t.inner_end, Method.s5ReplaceOnce, t))
  | _ =>
    match tok_by_quote text en_norm tokens py lb sc [SQ, SQ, SQ] true with
    | [(t, _)] =>
      some (Except.ok
        (text.take t.inner_start ++ sanitize_triple_content zh [SQ, SQ, SQ] ++
          text.drop t.inner_end, Method.s5ReplaceOnce, t))
    | _ =>
      match tok_by_quote text en_norm tokens py lb sc ['"'] false with
      | [(t, _)] =>
        some (Except.ok
          (text.take t.inner_start ++ escape_for_quote zh ['"'] ++
            text.drop t.inner_end, Method.s5ReplaceOnce, t))
      | _ =>
        match tok_by_quote text en_norm tokens py lb sc [SQ] false with
        | [(t, _)] =>
          some (Except.ok
            (text.take t.inner_start ++ escape_for_quote zh [SQ] ++
              text.drop t.inner_end, Method.s5ReplaceOnce, t))
        | _ => none

/-- the scored fuzzy candidates of S6: in the 200-line window, score at least
92, region not python (source lines 450-458). -/
def s6Scores (f : List Char → List Char → ℚ) (text en_norm : List Char)
    (tokens : List Token) (py lb sc : List (Nat × Nat)) (lh : Int) :
    List (ℚ × Token) :=
  (tokens.filter
    (fun t => ((((t.start_line + t.end_line) / 2 : Nat) : Int) - lh).natAbs ≤ 200)).filterMap
    (fun t =>
      let score := f en_norm (innerNorm text t)
      if 92 ≤ score ∧ region_of_token t py lb sc ≠ Region.python then some (score, t)
      else none)

/-- the sort key of S6: descending score, then ascending inner_start. -/
def s6R (a b : ℚ × Token) : Prop :=
  b.1 < a.1 ∨ (a.1 = b.1 ∧ a.2.inner_start ≤ b.2.inner_start)

instance : DecidableRel s6R := fun a b => by
  unfold s6R; infer_instance

/-- S6 (source lines 447-467): fuzzy fallback with score threshold 92 and
margin 3 over the runner-up. -/
def tierS6 (deps : Deps) (text zh en_norm : List Char) (tokens : List Token)
    (py lb sc : List (Nat × Nat)) (line_hint : Option Int) :
    Option (Except PErr PRes) :=
  match deps.fz, line_hint with
  | some f, some lh =>
    let scores := s6Scores f text en_norm tokens py lb sc lh
    (match List.insertionSort s6R scores with
     | [] => none
     | top :: restSorted =>
       if scores.length = 1 ∨
          (2 ≤ scores.length ∧ 3 ≤ top.1 - (restSorted.headD top).1) then
         some (Except.ok (replace_in_token text zh top.2,
           Method.s6FuzzyNearby top.1, top.2))
       else none)
  | _, _ => none

/-- source lines 310-469 (apply_patch_advanced): normalize, scan, classify,
then the tier cascade; ValueError not_found_or_ambiguous if no tier fires. -/
def apply_patch_advanced (deps : Deps) (text0 en zh : List Char)
    (line_hint idx_hint : Option Int) (anchor_prev anchor_next : Option (List Char)) :
    Except PErr PRes :=
  let text := normalize_newlines text0
  let en_norm := normalize_newlines en
  let tokens := scan_string_literals text
  let spans := detect_block_spans text
  let py := spans.1
  let lb := spans.2.1
  let sc := spans.2.2
  match tierS1 text zh en_norm tokens py lb sc line_hint idx_hint with
  | some r => r
  | none =>
    match tierS2 text zh en_norm tokens py lb sc line_hint with
    | some r => r
    | none =>
      match tierS3 deps text zh en en_norm tokens py lb sc anchor_prev anchor_next with
      | some r => r
      | none =>
        match tierS4 text zh en_norm tokens py lb sc with
        | some r => r
        | none =>
          match tierS5 text zh en_norm tokens py lb sc with
          | some r => r
          | none =>
            match tierS6 deps text zh en_norm tokens py lb sc line_hint with
            | some r => r
            | none => Except.error PErr.notFound

inductive Status
  | OK
  | NOOP
  | WARN
  | FAIL
deriving DecidableEq

/-- the method/message column of a report row. -/
inductive RowNote
  | okNote (m : Method) (r : Region)
  | unchanged (r : Region)
  | pythonRegionSkip (m : Method)
  | notFoundOrAmbiguous
  | placeholderMismatch
deriving DecidableEq

structure Row where
  uid : List Char
  status : Status
  note : RowNote
deriving DecidableEq

/-- one translation unit as consumed by patch_file_advanced: id, en, zh and
the optional positional hints of the record. -/
structure TUnit where
  uid : List Char
  en : List Char
  zh : List Char
  line : Option Int
  idx : Option Int
  anchor_prev : Option (List Char)
  anchor_next : Option (List Char)
deriving DecidableEq

/-- the region reported with a row: region_of_token against the normalized
text, exactly how every return site of apply_patch_advanced computes it. -/
def applyRegion (text0 : List Char) (t : Token) : Region :=
  let spans := detect_block_spans (normalize_newlines text0)
  region_of_token t spans.1 spans.2.1 spans.2.2

/-- the loop body of patch_file_advanced (source lines 608-634): placeholder
check, try apply_patch_advanced, record OK / NOOP / WARN / FAIL. -/
def processUnit (deps : Deps) (u : TUnit) (text : List Char) : List Char × List Row :=
  let ph : List Row :=
    if deps.phMismatch u.en u.zh then
      [{ uid := u.uid, status := Status.WARN, note := RowNote.placeholderMismatch }]
    else []
  match apply_patch_advanced deps text u.en u.zh u.line u.idx u.anchor_prev u.anchor_next with
  | Except.ok (new_text, m, t) =>
    if new_text ≠ text then
      (new_text, ph ++ [{ uid := u.uid, status := Status.OK,
                          note := RowNote.okNote m (applyRegion text t) }])
    else
      (text, ph ++ [{ uid := u.uid, status := Status.NOOP,
                      note := RowNote.unchanged (applyRegion text t) }])
  | Except.error (PErr.pythonRegion m) =>
    (text, ph ++ [{ uid := u.uid, status := Status.WARN,
                    note := RowNote.pythonRegionSkip m }])
  | Except.error PErr.notFound =>
    (text, ph ++ [{ uid := u.uid, status := Status.FAIL,
                    note := RowNote.notFoundOrAmbiguous }])

/-- code-point lexicographic order on char lists (Python string compare). -/
def lcLe : List Char → List Char → Bool
  | [], _ => true
  | _ :: _, [] => false
  | a :: xs, b :: ys => if a.val < b.val then true else if a.val = b.val then lcLe xs ys else false

/-- the sort key of patch_file_advanced (source lines 604-606):
(line or 10^9, idx or 10^9, id) ascending. -/
def unitR (a b : TUnit) : Prop :=
  (let la := a.line.getD 1000000000
   let lb := b.line.getD 1000000000
   la < lb ∨ (la = lb ∧
     (let ia := a.idx.getD 1000000000
      let ib := b.idx.getD 1000000000
      ia < ib ∨ (ia = ib ∧ lcLe a.uid b.uid = true))))

instance : DecidableRel unitR := fun a b => by
  unfold unitR; infer_instance

/-- one iteration of the loop of patch_file_advanced over the running
(text, file_modified, report_rows) state. -/
def pfStep (deps : Deps) (st : List Char × Bool × List Row) (u : TUnit) :
    List Char × Bool × List Row :=
  let step := processUnit deps u st.1
  (step.1, (if step.1 ≠ st.1 then true else st.2.1), st.2.2 ++ step.2)

/-- source lines 591-636 (patch_file_advanced): sort units, fold the loop
body, return the final text, the 1/0 modified flag, and the report rows. -/
def patch_file_advanced (deps : Deps) (text : List Char) (items : List TUnit) :
    List Char × Nat × List Row :=
  let items_sorted := List.insertionSort unitR items
  let st := items_sorted.foldl (pfStep deps) (text, false, ([] : List Row))
  (st.1, if st.2.1 then 1 else 0, st.2.2)

/-! ## Spec vocabulary

Definitions used only to state the claims about the engine. -/

/-- number of consecutive backslashes immediately before index i. -/
def backslashRunBefore (s : List Char) (i : Nat) : Nat :=
  ((s.take i).reverse.takeWhile (fun c => c = '\\')).length

/-- an occurrence of q at index i that is not backslash-escaped (an even run
of backslashes precedes it). -/
def unescapedOccAt (s : List Char) (q : Char) (i : Nat) : Prop :=
  s.get? i = some q ∧ backslashRunBefore s i % 2 = 0

/-- every occurrence of q is immediately preceded by a backslash; the Bool
argument says whether the previous character was a backslash. -/
def noBareChar (q : Char) : Bool → List Char → Bool
  | prevBS, a :: rest =>
    if a = q ∧ prevBS = false then false else noBareChar q (a = '\\') rest
  | _, [] => true

/-- every occurrence of the run d,d,d is immediately preceded by a
backslash. -/
def noBadTriple (d : Char) : Bool → List Char → Bool
  | prevBS, a :: b :: c :: rest =>
    if a = d ∧ b = d ∧ c = d ∧ prevBS = false then false
    else noBadTriple d (a = '\\') (b :: c :: rest)
  | _, _ => true

/-- the token's whole line range is disjoint from every span in the list. -/
def tokenLinesOutside (t : Token) (spans : List (Nat × Nat)) : Bool :=
  spans.all (fun ab => t.end_line < ab.1 ∨ ab.2 < t.start_line)

/-- pat occurs at index i of text. -/
def occursAtB (text pat : List Char) (i : Nat) : Bool := startsWith pat (text.drop i)

/-! ## Lemmas about strReplace -/

lemma replFuel_literal (pat rep : List Char) (f : Nat) (a : Char) (rest : List Char)
    (hm : startsWith pat (a :: rest) = false) :
    replFuel pat rep (f + 1) (a :: rest) = a :: replFuel pat rep f rest := by
  simp only [replFuel]
  rw [if_neg (by rintro ⟨-, hq⟩; rw [hm] at hq; exact Bool.false_ne_true hq)]

lemma replFuel_match (pat rep : List Char) (f : Nat) (a : Char) (rest : List Char)
    (hne : pat ≠ []) (hm : startsWith pat (a :: rest) = true) :
    replFuel pat rep (f + 1) (a :: rest) =
      rep ++ replFuel pat rep f ((a :: rest).drop pat.length) := by
  simp only [replFuel]
  rw [if_pos ⟨hne, hm⟩]

lemma replFuel_id (pat rep : List Char) :
    ∀ fuel s, occursB pat s = false → s.length ≤ fuel → replFuel pat rep fuel s = s := by
  intro fuel
  induction fuel with
  | zero =>
    intro s _ hlen
    have h0 : s = [] := List.length_eq_zero.mp (Nat.le_zero.mp hlen)
    subst h0; rfl
  | succ f ih =>
    intro s hocc hlen
    cases s with
    | nil => rfl
    | cons c rest =>
      have hsw : startsWith pat (c :: rest) = false := by
        simp only [occursB, Bool.or_eq_false_iff] at hocc
        exact hocc.1
      have hrest : occursB pat rest = false := by
        simp only [occursB, Bool.or_eq_false_iff] at hocc
        exact hocc.2
      rw [replFuel_literal pat rep f c rest hsw]
      rw [ih rest hrest (by simp only [List.length_cons] at hlen; omega)]

lemma strReplace_id (s pat rep : List Char) (h : occursB pat s = false) :
    strReplace s pat rep = s :=
  replFuel_id pat rep s.length s h (Nat.le_refl _)

/-- every occurrence of c in the output of the single-character escape
replacement is immediately preceded by a backslash. -/
lemma replFuel_noBare (c : Char) (hc : c ≠ '\\') :
    ∀ fuel s prevBS, s.length ≤ fuel →
      noBareChar c prevBS (replFuel [c] ['\\', c] fuel s) = true := by
  intro fuel
  induction fuel with
  | zero =>
    intro s prevBS hlen
    have h0 : s = [] := List.length_eq_zero.mp (Nat.le_zero.mp hlen)
    subst h0; rfl
  | succ f ih =>
    intro s prevBS hlen
    cases s with
    | nil => rfl
    | cons a rest =>
      have hlen2 : rest.length ≤ f := by
        simp only [List.length_cons] at hlen; omega
      by_cases ha : a = c
      · subst ha
        have hsw : startsWith [a] (a :: rest) = true := by simp [startsWith]
        have hred := replFuel_match [a] ['\\', a] f a rest (by simp) hsw
        simp only [List.length_singleton, List.drop_succ_cons, List.drop_zero] at hred
        rw [hred]
        show noBareChar a prevBS ('\\' :: a :: replFuel [a] ['\\', a] f rest) = true
        have step1 : noBareChar a prevBS ('\\' :: a :: replFuel [a] ['\\', a] f rest) =
            noBareChar a (decide ('\\' = '\\')) (a :: replFuel [a] ['\\', a] f rest) := by
          simp only [noBareChar]
          rw [if_neg (by rintro ⟨hcc, -⟩; exact hc hcc.symm)]
        rw [step1]
        have step2 : noBareChar a (decide ('\\' = '\\')) (a :: replFuel [a] ['\\', a] f rest) =
            noBareChar a (decide (a = '\\')) (replFuel [a] ['\\', a] f rest) := by
          simp only [noBareChar]
          rw [if_neg (by rintro ⟨-, hcc⟩; simp at hcc)]
        rw [step2]
        exact ih rest (decide (a = '\\')) hlen2
      · have hca : ¬(c = a) := fun h => ha h.symm
        have hsw : startsWith [c] (a :: rest) = false := by
          simp [startsWith, hca]
        rw [replFuel_literal [c] ['\\', c] f a rest hsw]
        have step1 : noBareChar c prevBS (a :: replFuel [c] ['\\', c] f rest) =
            noBareChar c (decide (a = '\\')) (replFuel [c] ['\\', c] f rest) := by
          simp only [noBareChar]
          rw [if_neg (by rintro ⟨hcc, -⟩; exact ha hcc)]
        rw [step1]
        exact ih rest (decide (a = '\\')) hlen2

/-- the output of the triple replacement starts with d only if the input
does. -/
lemma replFuel_trip_head (d : Char) :
    ∀ fuel l, startsWith [d] (replFuel [d, d, d] [d, d, '\\', d] fuel l) = true →
      startsWith [d] l = true := by
  intro fuel
  induction fuel with
  | zero => intro l h; simp [replFuel, startsWith] at h
  | succ f ih =>
    intro l h
    cases l with
    | nil => simp [replFuel, startsWith] at h
    | cons a rest =>
      by_cases hm : startsWith [d, d, d] (a :: rest) = true
      · rcases rest with _ | ⟨b, rest2⟩
        · simp [startsWith] at hm
        rcases rest2 with _ | ⟨c2, rest3⟩
        · simp [startsWith] at hm
        simp only [startsWith, Bool.and_eq_true, decide_eq_true_eq] at hm
        simp [startsWith, hm.1]
      · rw [replFuel_literal [d, d, d] [d, d, '\\', d] f a rest (Bool.not_eq_true _ ▸ hm)] at h
        simp only [startsWith, Bool.and_eq_true] at h ⊢
        exact h

/-- the output of the triple replacement starts with d,d only if the input
does. -/
lemma replFuel_trip_head2 (d : Char) :
    ∀ fuel l, startsWith [d, d] (replFuel [d, d, d] [d, d, '\\', d] fuel l) = true →
      startsWith [d, d] l = true := by
  intro fuel
  induction fuel with
  | zero => intro l h; simp [replFuel, startsWith] at h
  | succ f ih =>
    intro l h
    cases l with
    | nil => simp [replFuel, startsWith] at h
    | cons a rest =>
      by_cases hm : startsWith [d, d, d] (a :: rest) = true
      · rcases rest with _ | ⟨b, rest2⟩
        · simp [startsWith] at hm
        simp only [startsWith, Bool.and_eq_true, decide_eq_true_eq] at hm
        simp [startsWith, ← hm.1, ← hm.2.1]
      · rw [replFuel_literal [d, d, d] [d, d, '\\', d] f a rest (Bool.not_eq_true _ ▸ hm)] at h
        simp only [startsWith, Bool.and_eq_true, decide_eq_true_eq] at h
        obtain ⟨had, htail⟩ := h
        have htail1 : startsWith [d] (replFuel [d, d, d] [d, d, '\\', d] f rest) = true := by
          cases hx : replFuel [d, d, d] [d, d, '\\', d] f rest with
          | nil => rw [hx] at htail; simp [startsWith] at htail
          | cons x t =>
            rw [hx] at htail
            simp only [startsWith, Bool.and_eq_true, decide_eq_true_eq] at htail
            simp [startsWith, hx, htail.1]
        have hr := replFuel_trip_head d f rest htail1
        rcases rest with _ | ⟨b, rest2⟩
        · simp [startsWith] at hr
        simp only [startsWith, Bool.and_eq_true, decide_eq_true_eq] at hr
        simp [startsWith, ← had, ← hr.1]

/-- every occurrence of the run d,d,d in the output of the triple
replacement is immediately preceded by a backslash. -/
lemma replFuel_noBadTriple (d : Char) (hd : d ≠ '\\') :
    ∀ fuel l prevBS, l.length ≤ fuel →
      noBadTriple d prevBS (replFuel [d, d, d] [d, d, '\\', d] fuel l) = true := by
  intro fuel
  induction fuel with
  | zero =>
    intro l prevBS hlen
    have h0 : l = [] := List.length_eq_zero.mp (Nat.le_zero.mp hlen)
    subst h0; rfl
  | succ f ih =>
    intro l prevBS hlen
    cases l with
    | nil => rfl
    | cons a rest =>
      by_cases hm : startsWith [d, d, d] (a :: rest) = true
      · -- match case: the output is d, d, backslash, d then the recursion
        rcases rest with _ | ⟨b, rest2⟩
        · simp [startsWith] at hm
        rcases rest2 with _ | ⟨c2, rest3⟩
        · simp [startsWith] at hm
        have hm2 := hm
        simp only [startsWith, Bool.and_eq_true, decide_eq_true_eq] at hm2
        obtain ⟨hda, hdb, hdc, -⟩ := hm2
        have hred := replFuel_match [d, d, d] [d, d, '\\', d] f a (b :: c2 :: rest3)
          (by simp) hm
        simp only [List.length_cons, List.length_nil, List.drop_succ_cons,
          List.drop_zero] at hred
        rw [hred]
        have hlen3 : rest3.length ≤ f := by
          simp only [List.length_cons] at hlen; omega
        have hmain := ih rest3 false hlen3
        revert hmain
        generalize replFuel [d, d, d] [d, d, '\\', d] f rest3 = out
        intro hmain
        show noBadTriple d prevBS (d :: d :: '\\' :: d :: out) = true
        have step1 : noBadTriple d prevBS (d :: d :: '\\' :: d :: out) =
            noBadTriple d (decide (d = '\\')) (d :: '\\' :: d :: out) := by
          simp only [noBadTriple]
          rw [if_neg (by rintro ⟨-, -, hcc, -⟩; exact hd hcc.symm)]
        have step2 : noBadTriple d (decide (d = '\\')) (d :: '\\' :: d :: out) =
            noBadTriple d (decide (d = '\\')) ('\\' :: d :: out) := by
          simp only [noBadTriple]
          rw [if_neg (by rintro ⟨-, hcc, -, -⟩; exact hd hcc.symm)]
        rw [step1, step2]
        cases out with
        | nil => rfl
        | cons x t =>
          have step3 : noBadTriple d (decide (d = '\\')) ('\\' :: d :: x :: t) =
              noBadTriple d (decide ('\\' = '\\')) (d :: x :: t) := by
            simp only [noBadTriple]
            rw [if_neg (by rintro ⟨hcc, -, -, -⟩; exact hd hcc.symm)]
          rw [step3]
          cases t with
          | nil => rfl
          | cons y t2 =>
            have step4 : noBadTriple d (decide ('\\' = '\\')) (d :: x :: y :: t2) =
                noBadTriple d (decide (d = '\\')) (x :: y :: t2) := by
              simp only [noBadTriple]
              rw [if_neg (by rintro ⟨-, -, -, hcc⟩; simp at hcc)]
            rw [step4]
            have hdec : decide (d = '\\') = false := by simp [hd]
            rw [hdec]
            exact hmain
      · -- literal case: a is emitted unchanged
        rw [replFuel_literal [d, d, d] [d, d, '\\', d] f a rest (Bool.not_eq_true _ ▸ hm)]
        have hlen2 : rest.length ≤ f := by
          simp only [List.length_cons] at hlen; omega
        have hhd2 := replFuel_trip_head2 d f rest
        have hmain := fun pb => ih rest pb hlen2
        revert hmain hhd2
        generalize replFuel [d, d, d] [d, d, '\\', d] f rest = out
        intro hhd2 hmain
        cases out with
        | nil => cases prevBS <;> rfl
        | cons x t =>
          cases t with
          | nil => cases prevBS <;> rfl
          | cons y t2 =>
            have hcond : ¬(a = d ∧ x = d ∧ y = d ∧ prevBS = false) := by
              rintro ⟨had, hxd, hyd, -⟩
              have hsw2 : startsWith [d, d] (x :: y :: t2) = true := by
                subst hxd; subst hyd
                simp [startsWith]
              have hsw3 := hhd2 hsw2
              rcases rest with _ | ⟨b, rest2⟩
              · simp [startsWith] at hsw3
              simp only [startsWith, Bool.and_eq_true, decide_eq_true_eq] at hsw3
              refine hm ?_
              subst had
              simp [startsWith, ← hsw3.1]
              rcases rest2 with _ | ⟨c2, rest3⟩
              · simp [startsWith] at hsw3
              simp only [startsWith, Bool.and_eq_true, decide_eq_true_eq] at hsw3 ⊢
              exact hsw3.2
            have huf : noBadTriple d prevBS (a :: x :: y :: t2) =
                noBadTriple d (decide (a = '\\')) (x :: y :: t2) := by
              simp only [noBadTriple]
              rw [if_neg hcond]
            rw [huf]
            exact hmain (decide (a = '\\'))

/-- amended single/double quote safety at the strReplace wrapper level. -/
lemma escape_for_quote_noBare (s : List Char) (c : Char) (hc : c ≠ '\\') :
    noBareChar c false (escape_for_quote s [c]) = true :=
  replFuel_noBare c hc s.length s false (Nat.le_refl _)

/-- amended triple quote safety at the strReplace wrapper level. -/
lemma sanitize_noBadTriple (s : List Char) (d : Char) (hd : d ≠ '\\') :
    noBadTriple d false (sanitize_triple_content s [d, d, d]) = true := by
  have h : sanitize_triple_content s [d, d, d] =
      replFuel [d, d, d] [d, d, '\\', d] s.length s := rfl
  rw [h]
  exact replFuel_noBadTriple d hd s.length s false (Nat.le_refl _)

/-! ## Scanner span bounds -/

lemma pySlice_len3 (text : List Char) (j : Nat) (q3 : List Char) (hq : q3.length = 3)
    (h : pySlice text j (j + 3) = q3) : j + 3 ≤ text.length := by
  have hl : (pySlice text j (j + 3)).length = 3 := by rw [h, hq]
  simp only [pySlice, List.length_drop, List.length_take] at hl
  omega

lemma findTripleClose_some (text q3 : List Char) :
    ∀ fuel i j, findTripleClose text q3 fuel i = some j →
      i ≤ j ∧ j < text.length ∧ pySlice text j (j + 3) = q3 := by
  intro fuel
  induction fuel with
  | zero => intro i j h; simp [findTripleClose] at h
  | succ f ih =>
    intro i j h
    simp only [findTripleClose] at h
    by_cases hlt : i < text.length
    · rw [if_pos hlt] at h
      by_cases hsl : pySlice text i (i + 3) = q3
      · rw [if_pos hsl] at h
        obtain rfl := Option.some.inj h
        exact ⟨Nat.le_refl _, hlt, hsl⟩
      · rw [if_neg hsl] at h
        obtain ⟨h1, h2, h3⟩ := ih (i + 1) j h
        exact ⟨by omega, h2, h3⟩
    · rw [if_neg hlt] at h
      simp at h

lemma findSingleClose_some (text : List Char) (q : Char) :
    ∀ fuel i esc j, findSingleClose text q fuel i esc = some j →
      i ≤ j ∧ j < text.length := by
  intro fuel
  induction fuel with
  | zero => intro i esc j h; simp [findSingleClose] at h
  | succ f ih =>
    intro i esc j h
    simp only [findSingleClose] at h
    split at h
    case isTrue hlt =>
      split at h
      · obtain ⟨h1, h2⟩ := ih (i + 1) false j h
        exact ⟨by omega, h2⟩
      · split at h
        · obtain ⟨h1, h2⟩ := ih (i + 1) true j h
          exact ⟨by omega, h2⟩
        · split at h
          · obtain rfl := Option.some.inj h
            exact ⟨Nat.le_refl _, hlt⟩
          · obtain ⟨h1, h2⟩ := ih (i + 1) false j h
            exact ⟨by omega, h2⟩
    case isFalse hlt => simp at h

lemma scanAux_bounds (text : List Char) (ls : List Nat) :
    ∀ fuel i t, t ∈ scanAux text ls fuel i →
      t.inner_start ≤ t.inner_end ∧ t.inner_end ≤ text.length := by
  intro fuel
  induction fuel with
  | zero => intro i t h; simp [scanAux] at h
  | succ f ih =>
    intro i t h
    simp only [scanAux] at h
    split at h
    case isFalse => simp at h
    case isTrue hin =>
      split at h
      case isFalse => exact ih (i + 1) t h
      case isTrue hq =>
        split at h
        case isTrue htr =>
          split at h
          case h_1 j hj =>
            obtain ⟨hj1, hj2, hj3⟩ := findTripleClose_some text _ _ _ j hj
            rcases List.mem_cons.mp h with rfl | hmem
            · refine ⟨?_, ?_⟩ <;> dsimp only <;> omega
            · exact ih (j + 3) t hmem
          case h_2 hj =>
            obtain ⟨h2n, -⟩ := htr
            rcases List.mem_singleton.mp h with rfl
            refine ⟨?_, ?_⟩ <;> dsimp only <;> omega
        case isFalse htr =>
          split at h
          case h_1 j hj =>
            obtain ⟨hj1, hj2⟩ := findSingleClose_some text _ _ _ false j hj
            rcases List.mem_cons.mp h with rfl | hmem
            · refine ⟨?_, ?_⟩ <;> dsimp only <;> omega
            · exact ih (j + 1) t hmem
          case h_2 hj =>
            rcases List.mem_singleton.mp h with rfl
            refine ⟨?_, ?_⟩ <;> dsimp only <;> omega

lemma scan_bounds (text : List Char) (t : Token) (h : t ∈ scan_string_literals text) :
    t.inner_start ≤ t.inner_end ∧ t.inner_end ≤ text.length :=
  scanAux_bounds text _ _ 0 t h



/-! ## Per-tier facts -/

lemma filter_eq_singleton_mem {α : Type} {p : α → Bool} {l : List α} {x : α}
    (h : l.filter p = [x]) : x ∈ l ∧ p x = true := by
  have hx : x ∈ l.filter p := by rw [h]; simp
  exact ⟨(List.mem_filter.mp hx).1, (List.mem_filter.mp hx).2⟩

lemma acceptTok_ok {text zh : List Char} {py lb sc : List (Nat × Nat)} {t : Token}
    {m : Method} {new : List Char} {m2 : Method} {t2 : Token}
    (h : acceptTok text zh py lb sc t m = Except.ok (new, m2, t2)) :
    new = replace_in_token text zh t ∧ m2 = m ∧ t2 = t ∧
      region_of_token t py lb sc ≠ Region.python := by
  unfold acceptTok at h
  split at h
  · exact absurd h (by simp)
  case isFalse hreg =>
    simp only [Except.ok.injEq, Prod.mk.injEq] at h
    exact ⟨h.1.symm, h.2.1.symm, h.2.2.symm, hreg⟩

lemma tierS1_ok {text zh en_norm : List Char} {tokens : List Token}
    {py lb sc : List (Nat × Nat)} {lh ihh : Option Int} {new : List Char}
    {m : Method} {t : Token}
    (h : tierS1 text zh en_norm tokens py lb sc lh ihh = some (Except.ok (new, m, t))) :
    t ∈ tokens ∧ new = replace_in_token text zh t ∧
      region_of_token t py lb sc ≠ Region.python ∧
      (m = Method.s1LineIdx ∨ m = Method.s1LineExact) := by
  unfold tierS1 at h
  simp only [] at h
  split at h
  case h_2 => exact absurd h (by simp)
  case h_1 lhv ihv =>
    split at h
    case h_1 r hr =>
      obtain rfl := Option.some.inj h
      split at hr
      case isTrue hidx =>
        split at hr
        case isTrue hinner =>
          have hacc := Option.some.inj hr
          obtain ⟨hnew, hm, ht, hreg⟩ := acceptTok_ok hacc
          subst ht
          refine ⟨?_, hnew, hreg, Or.inl hm⟩
          have hmem1 := List.get_mem _ ihv.toNat hidx.2
          have h2 := (List.mem_filter.mp hmem1).1
          exact (List.mem_filter.mp h2).1
        case isFalse => exact absurd hr (by simp)
      case isFalse => exact absurd hr (by simp)
    case h_2 hr =>
      split at h
      case h_1 t1 hft =>
        have hacc := Option.some.inj h
        obtain ⟨hnew, hm, ht, hreg⟩ := acceptTok_ok hacc
        subst ht
        obtain ⟨hmem, -⟩ := filter_eq_singleton_mem hft
        refine ⟨?_, hnew, hreg, Or.inr hm⟩
        exact (List.mem_filter.mp hmem).1
      case h_2 => exact absurd h (by simp)

lemma tierS2_ok {text zh en_norm : List Char} {tokens : List Token}
    {py lb sc : List (Nat × Nat)} {lh : Option Int} {new : List Char}
    {m : Method} {t : Token}
    (h : tierS2 text zh en_norm tokens py lb sc lh = some (Except.ok (new, m, t))) :
    t ∈ tokens ∧ new = replace_in_token text zh t ∧
      region_of_token t py lb sc ≠ Region.python ∧ m = Method.s2Nearby := by
  unfold tierS2 at h
  simp only [] at h
  split at h
  case h_2 => exact absurd h (by simp)
  case h_1 lhv =>
    split at h
    case h_1 t1 hft =>
      have hacc := Option.some.inj h
      obtain ⟨hnew, hm, ht, hreg⟩ := acceptTok_ok hacc
      subst ht
      obtain ⟨hmem, -⟩ := filter_eq_singleton_mem hft
      exact ⟨(List.mem_filter.mp hmem).1, hnew, hreg, hm⟩
    case h_2 => exact absurd h (by simp)

lemma pyMinList_spec (key : Token → Nat) :
    ∀ (l : List Token) (x : Token),
      (pyMinList key x l = x ∨ pyMinList key x l ∈ l) ∧
      key (pyMinList key x l) ≤ key x ∧
      ∀ y ∈ l, key (pyMinList key x l) ≤ key y := by
  intro l
  induction l with
  | nil => intro x; exact ⟨Or.inl rfl, Nat.le_refl _, by simp⟩
  | cons a l2 ih =>
    intro x
    have hstep : pyMinList key x (a :: l2) =
        pyMinList key (if key a < key x then a else x) l2 := rfl
    by_cases hc : key a < key x
    · rw [hstep, if_pos hc]
      obtain ⟨hmem, hle, hall⟩ := ih a
      refine ⟨?_, ?_, ?_⟩
      · rcases hmem with he | hm
        · exact Or.inr (by rw [he]; exact List.mem_cons_self a l2)
        · exact Or.inr (List.mem_cons_of_mem a hm)
      · exact Nat.le_trans hle (Nat.le_of_lt hc)
      · intro y hy
        rcases List.mem_cons.mp hy with rfl | hy2
        · exact hle
        · exact hall y hy2
    · rw [hstep, if_neg hc]
      obtain ⟨hmem, hle, hall⟩ := ih x
      refine ⟨?_, hle, ?_⟩
      · rcases hmem with he | hm
        · exact Or.inl he
        · exact Or.inr (List.mem_cons_of_mem a hm)
      · intro y hy
        rcases List.mem_cons.mp hy with rfl | hy2
        · exact Nat.le_trans hle (Nat.le_of_not_lt hc)
        · exact hall y hy2

lemma anchorRegionTokens_mem {tokens : List Token} {s e : Nat} {t : Token}
    (h : t ∈ anchorRegionTokens tokens s e) :
    t ∈ tokens ∧ t.start < e ∧ s < t.stop := by
  unfold anchorRegionTokens at h
  obtain ⟨h1, h2⟩ := List.mem_filter.mp h
  exact ⟨h1, of_decide_eq_true h2⟩

lemma tierS3_ok {deps : Deps} {text zh en en_norm : List Char} {tokens : List Token}
    {py lb sc : List (Nat × Nat)} {ap an : Option (List Char)} {new : List Char}
    {m : Method} {t : Token}
    (h : tierS3 deps text zh en en_norm tokens py lb sc ap an =
      some (Except.ok (new, m, t))) :
    t ∈ tokens ∧ new = replace_in_token text zh t ∧
      region_of_token t py lb sc ≠ Region.python ∧
      (m = Method.s3Anchors ∨ m = Method.s3AnchorsClosest ∨ m = Method.s35Semantic) ∧
      ((m = Method.s3Anchors ∨ m = Method.s3AnchorsClosest) →
        t.start < (anchorInterval text ap an).2 ∧ (anchorInterval text ap an).1 < t.stop) ∧
      (m = Method.s3AnchorsClosest →
        ∀ t2 ∈ (anchorRegionTokens tokens (anchorInterval text ap an).1
            (anchorInterval text ap an).2).filter (fun x => innerNorm text x = en_norm),
          midKey (((anchorInterval text ap an).1 + (anchorInterval text ap an).2) / 2) t ≤
            midKey (((anchorInterval text ap an).1 + (anchorInterval text ap an).2) / 2) t2) := by
  unfold tierS3 at h
  simp only [] at h
  split at h
  case isFalse => exact absurd h (by simp)
  case isTrue hanch =>
    split at h
    case h_1 t1 hft =>
      have hacc := Option.some.inj h
      obtain ⟨hnew, hm, ht, hreg⟩ := acceptTok_ok hacc
      subst ht
      obtain ⟨hmem, -⟩ := filter_eq_singleton_mem hft
      obtain ⟨hmemT, hoverlap⟩ := anchorRegionTokens_mem hmem
      refine ⟨hmemT, hnew, hreg, Or.inl hm, fun _ => hoverlap, ?_⟩
      intro hmc
      rw [hm] at hmc
      exact absurd hmc (by simp)
    case h_2 t1 t2c rest hft =>
      have hacc := Option.some.inj h
      obtain ⟨hnew, hm, ht, hreg⟩ := acceptTok_ok hacc
      subst ht
      obtain ⟨hminmem, -, hminall⟩ := pyMinList_spec
        (midKey (((anchorInterval text ap an).1 + (anchorInterval text ap an).2) / 2))
        (t2c :: rest) t1
      have hmem : pyMinList
          (midKey (((anchorInterval text ap an).1 + (anchorInterval text ap an).2) / 2))
          t1 (t2c :: rest) ∈
          (anchorRegionTokens tokens (anchorInterval text ap an).1
            (anchorInterval text ap an).2).filter (fun x => innerNorm text x = en_norm) := by
        rw [hft]
        rcases hminmem with he | hm2
        · rw [he]; exact List.mem_cons_self _ _
        · exact List.mem_cons_of_mem _ hm2
      have hmem2 := (List.mem_filter.mp hmem).1
      obtain ⟨hmemT, hoverlap⟩ := anchorRegionTokens_mem hmem2
      refine ⟨hmemT, hnew, hreg, Or.inr (Or.inl hm),
        fun _ => hoverlap, ?_⟩
      intro _ t3 ht3
      rw [hft] at ht3
      rcases List.mem_cons.mp ht3 with rfl | h3
      · exact (pyMinList_spec _ (t2c :: rest) t3).2.1
      · exact hminall t3 h3
    case h_3 hft =>
      split at h
      case h_1 f hsig =>
        split at h
        case h_1 t1 hc =>
          have hacc := Option.some.inj h
          obtain ⟨hnew, hm, ht, hreg⟩ := acceptTok_ok hacc
          subst ht
          obtain ⟨hmem, -⟩ := filter_eq_singleton_mem hc
          obtain ⟨hmemT, -⟩ := anchorRegionTokens_mem hmem
          refine ⟨hmemT, hnew, hreg, Or.inr (Or.inr hm), ?_, ?_⟩
          · intro hmc
            rw [hm] at hmc
            rcases hmc with hx | hx <;> exact absurd hx (by simp)
          · intro hmc
            rw [hm] at hmc
            exact absurd hmc (by simp)
        case h_2 => exact absurd h (by simp)
      case h_2 => exact absurd h (by simp)

lemma tierS4_ok {text zh en_norm : List Char} {tokens : List Token}
    {py lb sc : List (Nat × Nat)} {new : List Char} {m : Method} {t : Token}
    (h : tierS4 text zh en_norm tokens py lb sc = some (Except.ok (new, m, t))) :
    t ∈ tokens ∧ new = replace_in_token text zh t ∧
      region_of_token t py lb sc ≠ Region.python ∧ m = Method.s4Unique := by
  unfold tierS4 at h
  split at h
  case h_1 t1 hft =>
    have hacc := Option.some.inj h
    obtain ⟨hnew, hm, ht, hreg⟩ := acceptTok_ok hacc
    subst ht
    obtain ⟨hmem, -⟩ := filter_eq_singleton_mem hft
    exact ⟨hmem, hnew, hreg, hm⟩
  case h_2 => exact absurd h (by simp)

lemma tok_by_quote_singleton {text en_norm : List Char} {tokens : List Token}
    {py lb sc : List (Nat × Nat)} {q : List Char} {triple : Bool} {t : Token} {r : Region}
    (h : tok_by_quote text en_norm tokens py lb sc q triple = [(t, r)]) :
    t ∈ tokens ∧ t.quote = q ∧ t.is_triple = triple ∧ innerNorm text t = en_norm ∧
      region_of_token t py lb sc ≠ Region.python ∧ r = region_of_token t py lb sc := by
  unfold tok_by_quote at h
  cases hl : tokens.filter
      (fun t => (t.quote = q ∧ t.is_triple = triple ∧ innerNorm text t = en_norm ∧
        region_of_token t py lb sc ≠ Region.python : Bool)) with
  | nil => rw [hl] at h; simp at h
  | cons a tl =>
    rw [hl] at h
    simp only [List.map_cons, List.cons.injEq, Prod.mk.injEq] at h
    obtain ⟨⟨hat, har⟩, hmap⟩ := h
    have htl : tl = [] := by
      cases tl with
      | nil => rfl
      | cons b tb => simp at hmap
    subst htl
    subst hat
    obtain ⟨hmem2, hp⟩ := filter_eq_singleton_mem hl
    have hp2 := of_decide_eq_true hp
    exact ⟨hmem2, hp2.1, hp2.2.1, hp2.2.2.1, hp2.2.2.2, har.symm⟩


lemma tierS5_ok {text zh en_norm : List Char} {tokens : List Token}
    {py lb sc : List (Nat × Nat)} {new : List Char} {m : Method} {t : Token}
    (h : tierS5 text zh en_norm tokens py lb sc = some (Except.ok (new, m, t))) :
    t ∈ tokens ∧ new = replace_in_token text zh t ∧
      region_of_token t py lb sc ≠ Region.python ∧ m = Method.s5ReplaceOnce ∧
      tok_by_quote text en_norm tokens py lb sc t.quote t.is_triple =
        [(t, region_of_token t py lb sc)] := by
  unfold tierS5 at h
  split at h
  case h_1 t1 r1 hq =>
    simp only [Option.some.injEq, Except.ok.injEq, Prod.mk.injEq] at h
    obtain ⟨hnew, hm, ht⟩ := h
    subst ht
    obtain ⟨hmem, hquote, htrip, hin, hreg, hr⟩ := tok_by_quote_singleton hq
    refine ⟨hmem, ?_, hreg, hm.symm, ?_⟩
    · rw [← hnew]
      unfold replace_in_token
      rw [htrip, hquote]
      simp
    · rw [hquote, htrip, hq, hr]
  case h_2 hq1 =>
    split at h
    case h_1 t1 r1 hq =>
      simp only [Option.some.injEq, Except.ok.injEq, Prod.mk.injEq] at h
      obtain ⟨hnew, hm, ht⟩ := h
      subst ht
      obtain ⟨hmem, hquote, htrip, hin, hreg, hr⟩ := tok_by_quote_singleton hq
      refine ⟨hmem, ?_, hreg, hm.symm, ?_⟩
      · rw [← hnew]
        unfold replace_in_token
        rw [htrip, hquote]
        simp
      · rw [hquote, htrip, hq, hr]
    case h_2 hq2 =>
      split at h
      case h_1 t1 r1 hq =>
        simp only [Option.some.injEq, Except.ok.injEq, Prod.mk.injEq] at h
        obtain ⟨hnew, hm, ht⟩ := h
        subst ht
        obtain ⟨hmem, hquote, htrip, hin, hreg, hr⟩ := tok_by_quote_singleton hq
        refine ⟨hmem, ?_, hreg, hm.symm, ?_⟩
        · rw [← hnew]
          unfold replace_in_token
          rw [htrip, hquote]
          simp
        · rw [hquote, htrip, hq, hr]
      case h_2 hq3 =>
        split at h
        case h_1 t1 r1 hq =>
          simp only [Option.some.injEq, Except.ok.injEq, Prod.mk.injEq] at h
          obtain ⟨hnew, hm, ht⟩ := h
          subst ht
          obtain ⟨hmem, hquote, htrip, hin, hreg, hr⟩ := tok_by_quote_singleton hq
          refine ⟨hmem, ?_, hreg, hm.symm, ?_⟩
          · rw [← hnew]
            unfold replace_in_token
            rw [htrip, hquote]
            simp
          · rw [hquote, htrip, hq, hr]
        case h_2 => exact absurd h (by simp)

instance : IsTrans (ℚ × Token) s6R := ⟨by
  intro a b c hab hbc
  unfold s6R at *
  rcases hab with h1 | ⟨h1, h2⟩ <;> rcases hbc with h3 | ⟨h3, h4⟩
  · exact Or.inl (lt_trans h3 h1)
  · exact Or.inl (by rw [← h3]; exact h1)
  · exact Or.inl (by rw [h1]; exact h3)
  · exact Or.inr ⟨h1.trans h3, h2.trans h4⟩⟩

instance : IsTotal (ℚ × Token) s6R := ⟨by
  intro a b
  unfold s6R
  rcases lt_trichotomy a.1 b.1 with h | h | h
  · exact Or.inr (Or.inl h)
  · rcases Nat.le_total a.2.inner_start b.2.inner_start with h2 | h2
    · exact Or.inl (Or.inr ⟨h, h2⟩)
    · exact Or.inr (Or.inr ⟨h.symm, h2⟩)
  · exact Or.inl (Or.inl h)⟩

lemma s6Scores_mem {f : List Char → List Char → ℚ} {text en_norm : List Char}
    {tokens : List Token} {py lb sc : List (Nat × Nat)} {lh : Int} {p : ℚ × Token}
    (h : p ∈ s6Scores f text en_norm tokens py lb sc lh) :
    p.2 ∈ tokens ∧ p.1 = f en_norm (innerNorm text p.2) ∧ 92 ≤ p.1 ∧
      region_of_token p.2 py lb sc ≠ Region.python := by
  unfold s6Scores at h
  obtain ⟨t0, ht0, hf⟩ := List.mem_filterMap.mp h
  simp only [] at hf
  split at hf
  case isTrue hcond =>
    obtain rfl := Option.some.inj hf
    exact ⟨(List.mem_filter.mp ht0).1, rfl, hcond.1, hcond.2⟩
  case isFalse => exact absurd hf (by simp)

lemma s6R_fst {a b : ℚ × Token} (h : s6R a b) : b.1 ≤ a.1 := by
  unfold s6R at h
  rcases h with h | ⟨h, -⟩
  · exact le_of_lt h
  · exact le_of_eq h.symm

lemma tierS6_ok {deps : Deps} {text zh en_norm : List Char} {tokens : List Token}
    {py lb sc : List (Nat × Nat)} {lhh : Option Int} {new : List Char}
    {m : Method} {t : Token}
    (h : tierS6 deps text zh en_norm tokens py lb sc lhh = some (Except.ok (new, m, t))) :
    ∃ f lh sc0, deps.fz = some f ∧ lhh = some lh ∧ m = Method.s6FuzzyNearby sc0 ∧
      (sc0, t) ∈ s6Scores f text en_norm tokens py lb sc lh ∧
      (∀ p ∈ s6Scores f text en_norm tokens py lb sc lh, p.1 ≤ sc0) ∧
      (s6Scores f text en_norm tokens py lb sc lh).countP
        (fun p => decide (sc0 - 3 < p.1)) ≤ 1 ∧
      new = replace_in_token text zh t ∧
      region_of_token t py lb sc ≠ Region.python ∧ t ∈ tokens := by
  unfold tierS6 at h
  simp only [] at h
  split at h
  case h_2 => exact absurd h (by simp)
  case h_1 o1 o2 f lh hfz =>
    split at h
    case h_1 => exact absurd h (by simp)
    case h_2 top restS hsort =>
      split at h
      case isFalse => exact absurd h (by simp)
      case isTrue hcond =>
        simp only [Option.some.injEq, Except.ok.injEq, Prod.mk.injEq] at h
        obtain ⟨hnew, hm, ht⟩ := h
        subst ht
        refine ⟨f, lh, top.1, hfz, rfl, hm.symm, ?_, ?_, ?_, hnew.symm, ?_, ?_⟩
        case _ =>
          -- (top.1, top.2) = top is a member of scores
          have htop : top ∈ List.insertionSort s6R
              (s6Scores f text en_norm tokens py lb sc lh) := by
            rw [hsort]; exact List.mem_cons_self _ _
          have := (List.mem_insertionSort s6R).mp htop
          simpa using this
        case _ =>
          intro p hp
          have hp2 : p ∈ List.insertionSort s6R
              (s6Scores f text en_norm tokens py lb sc lh) :=
            (List.mem_insertionSort s6R).mpr hp
          rw [hsort] at hp2
          rcases List.mem_cons.mp hp2 with rfl | hp3
          · exact le_refl _
          · have hsorted := List.sorted_insertionSort s6R
              (s6Scores f text en_norm tokens py lb sc lh)
            rw [hsort] at hsorted
            exact s6R_fst ((List.sorted_cons.mp hsorted).1 p hp3)
        case _ =>
          -- at most one候 candidate within 3 of the top score
          have hperm : (s6Scores f text en_norm tokens py lb sc lh).countP
              (fun p => decide (top.1 - 3 < p.1)) =
              (List.insertionSort s6R (s6Scores f text en_norm tokens py lb sc lh)).countP
              (fun p => decide (top.1 - 3 < p.1)) :=
            (List.perm_insertionSort s6R _).countP_eq _ |>.symm
          rw [hperm, hsort]
          rcases hcond with hlen1 | ⟨hlen2, hmargin⟩
          · have : (s6Scores f text en_norm tokens py lb sc lh).length = 1 := hlen1
            have hlen : (top :: restS).length = 1 := by
              rw [← hsort, List.length_insertionSort]; exact this
            have : restS = [] := by
              simp only [List.length_cons] at hlen
              exact List.length_eq_zero.mp (by omega)
            subst this
            simp [List.countP_cons]
          · -- margin case: every other entry is at least 3 below the top
            cases restS with
            | nil =>
              simp [List.countP_cons]
            | cons second rest2 =>
              have hsorted := List.sorted_insertionSort s6R
                (s6Scores f text en_norm tokens py lb sc lh)
              rw [hsort] at hsorted
              have h2nd : (second :: rest2).headD top = second := rfl
              rw [h2nd] at hmargin
              have hall2 : ∀ p ∈ second :: rest2, p.1 ≤ second.1 := by
                intro p hp
                rcases List.mem_cons.mp hp with rfl | hp2
                · exact le_refl _
                · exact s6R_fst ((List.sorted_cons.mp (List.sorted_cons.mp hsorted).2).1 p hp2)
              have hzero : (second :: rest2).countP (fun p => decide (top.1 - 3 < p.1)) = 0 := by
                rw [List.countP_eq_zero]
                intro p hp
                have := hall2 p hp
                simp only [decide_eq_true_eq, not_lt]
                linarith
              rw [List.countP_cons]
              rw [hzero]
              try (split <;> simp)
              try omega
        case _ =>
          -- region of the selected token is not python
          have htop : top ∈ List.insertionSort s6R
              (s6Scores f text en_norm tokens py lb sc lh) := by
            rw [hsort]; exact List.mem_cons_self _ _
          have hmem := (List.mem_insertionSort s6R).mp htop
          exact (s6Scores_mem hmem).2.2.2
        case _ =>
          have htop : top ∈ List.insertionSort s6R
              (s6Scores f text en_norm tokens py lb sc lh) := by
            rw [hsort]; exact List.mem_cons_self _ _
          have hmem := (List.mem_insertionSort s6R).mp htop
          exact (s6Scores_mem hmem).1


/-! ## Facts about the whole cascade -/

lemma apply_ok {deps : Deps} {text0 en zh : List Char} {lh ihh : Option Int}
    {ap an : Option (List Char)} {new : List Char} {m : Method} {t : Token}
    (h : apply_patch_advanced deps text0 en zh lh ihh ap an = Except.ok (new, m, t)) :
    t ∈ scan_string_literals (normalize_newlines text0) ∧
      new = replace_in_token (normalize_newlines text0) zh t ∧
      region_of_token t (detect_block_spans (normalize_newlines text0)).1
        (detect_block_spans (normalize_newlines text0)).2.1
        (detect_block_spans (normalize_newlines text0)).2.2 ≠ Region.python := by
  unfold apply_patch_advanced at h
  simp only [] at h
  split at h
  case h_1 r hr =>
    subst h
    obtain ⟨h1, h2, h3, -⟩ := tierS1_ok hr
    exact ⟨h1, h2, h3⟩
  case h_2 =>
    split at h
    case h_1 r hr =>
      subst h
      obtain ⟨h1, h2, h3, -⟩ := tierS2_ok hr
      exact ⟨h1, h2, h3⟩
    case h_2 =>
      split at h
      case h_1 r hr =>
        subst h
        obtain ⟨h1, h2, h3, -, -, -⟩ := tierS3_ok hr
        exact ⟨h1, h2, h3⟩
      case h_2 =>
        split at h
        case h_1 r hr =>
          subst h
          obtain ⟨h1, h2, h3, -⟩ := tierS4_ok hr
          exact ⟨h1, h2, h3⟩
        case h_2 =>
          split at h
          case h_1 r hr =>
            subst h
            obtain ⟨h1, h2, h3, -, -⟩ := tierS5_ok hr
            exact ⟨h1, h2, h3⟩
          case h_2 =>
            split at h
            case h_1 r hr =>
              subst h
              obtain ⟨f, lhv, sc0, -, -, -, -, -, -, hnew, hreg, hmt⟩ := tierS6_ok hr
              exact ⟨hmt, hnew, hreg⟩
            case h_2 => exact absurd h (by simp)

lemma apply_ok_s3 {deps : Deps} {text0 en zh : List Char} {lh ihh : Option Int}
    {ap an : Option (List Char)} {new : List Char} {m : Method} {t : Token}
    (h : apply_patch_advanced deps text0 en zh lh ihh ap an = Except.ok (new, m, t))
    (hm : m = Method.s3Anchors ∨ m = Method.s3AnchorsClosest) :
    tierS3 deps (normalize_newlines text0) zh en (normalize_newlines en)
      (scan_string_literals (normalize_newlines text0))
      (detect_block_spans (normalize_newlines text0)).1
      (detect_block_spans (normalize_newlines text0)).2.1
      (detect_block_spans (normalize_newlines text0)).2.2 ap an =
      some (Except.ok (new, m, t)) := by
  unfold apply_patch_advanced at h
  simp only [] at h
  split at h
  case h_1 r hr =>
    subst h
    obtain ⟨-, -, -, hmm⟩ := tierS1_ok hr
    rcases hmm with h5 | h5 <;> rw [h5] at hm <;> simp at hm
  case h_2 =>
    split at h
    case h_1 r hr =>
      subst h
      obtain ⟨-, -, -, h5⟩ := tierS2_ok hr
      rw [h5] at hm; simp at hm
    case h_2 =>
      split at h
      case h_1 r hr =>
        subst h
        exact hr
      case h_2 =>
        split at h
        case h_1 r hr =>
          subst h
          obtain ⟨-, -, -, h5⟩ := tierS4_ok hr
          rw [h5] at hm; simp at hm
        case h_2 =>
          split at h
          case h_1 r hr =>
            subst h
            obtain ⟨-, -, -, h5, -⟩ := tierS5_ok hr
            rw [h5] at hm; simp at hm
          case h_2 =>
            split at h
            case h_1 r hr =>
              subst h
              obtain ⟨f, lhv, sc0, -, -, h5, -⟩ := tierS6_ok hr
              rw [h5] at hm; simp at hm
            case h_2 => exact absurd h (by simp)

lemma apply_ok_s6 {deps : Deps} {text0 en zh : List Char} {lh ihh : Option Int}
    {ap an : Option (List Char)} {new : List Char} {q : ℚ} {t : Token}
    (h : apply_patch_advanced deps text0 en zh lh ihh ap an =
      Except.ok (new, Method.s6FuzzyNearby q, t)) :
    tierS6 deps (normalize_newlines text0) zh (normalize_newlines en)
      (scan_string_literals (normalize_newlines text0))
      (detect_block_spans (normalize_newlines text0)).1
      (detect_block_spans (normalize_newlines text0)).2.1
      (detect_block_spans (normalize_newlines text0)).2.2 lh =
      some (Except.ok (new, Method.s6FuzzyNearby q, t)) := by
  unfold apply_patch_advanced at h
  simp only [] at h
  split at h
  case h_1 r hr =>
    subst h
    obtain ⟨-, -, -, hmm⟩ := tierS1_ok hr
    rcases hmm with h5 | h5 <;> simp at h5
  case h_2 =>
    split at h
    case h_1 r hr =>
      subst h
      obtain ⟨-, -, -, h5⟩ := tierS2_ok hr
      simp at h5
    case h_2 =>
      split at h
      case h_1 r hr =>
        subst h
        obtain ⟨-, -, -, hmm, -, -⟩ := tierS3_ok hr
        rcases hmm with h5 | h5 | h5 <;> simp at h5
      case h_2 =>
        split at h
        case h_1 r hr =>
          subst h
          obtain ⟨-, -, -, h5⟩ := tierS4_ok hr
          simp at h5
        case h_2 =>
          split at h
          case h_1 r hr =>
            subst h
            obtain ⟨-, -, -, h5, -⟩ := tierS5_ok hr
            simp at h5
          case h_2 =>
            split at h
            case h_1 r hr =>
              subst h
              exact hr
            case h_2 => exact absurd h (by simp)


/-! ## Facts about processUnit and the per-file loop -/

/-- report rows other than the placeholder warning are outcome rows: one per
unit. -/
def isOutcomeRow (r : Row) : Bool := r.note ≠ RowNote.placeholderMismatch

lemma processUnit_count (deps : Deps) (u : TUnit) (text : List Char) :
    ((processUnit deps u text).2).countP isOutcomeRow = 1 := by
  unfold processUnit
  by_cases hph : deps.phMismatch u.en u.zh
  all_goals
    split <;> (try split) <;> (try split) <;>
      simp [hph, isOutcomeRow, List.countP_append, List.countP_cons]

lemma processUnit_noop (deps : Deps) (u : TUnit) (text : List Char)
    {new : List Char} {m : Method} {t : Token}
    (happ : apply_patch_advanced deps text u.en u.zh u.line u.idx u.anchor_prev
      u.anchor_next = Except.ok (new, m, t))
    (heq : new = text) :
    processUnit deps u text = (text,
      (if deps.phMismatch u.en u.zh then
        [{ uid := u.uid, status := Status.WARN, note := RowNote.placeholderMismatch }]
       else []) ++
      [{ uid := u.uid, status := Status.NOOP,
         note := RowNote.unchanged (applyRegion text t) }]) := by
  unfold processUnit
  rw [happ]
  subst heq
  simp

lemma processUnit_okCase (deps : Deps) (u : TUnit) (text : List Char)
    {new : List Char} {m : Method} {t : Token}
    (happ : apply_patch_advanced deps text u.en u.zh u.line u.idx u.anchor_prev
      u.anchor_next = Except.ok (new, m, t))
    (hne : ¬(new = text)) :
    processUnit deps u text = (new,
      (if deps.phMismatch u.en u.zh then
        [{ uid := u.uid, status := Status.WARN, note := RowNote.placeholderMismatch }]
       else []) ++
      [{ uid := u.uid, status := Status.OK,
         note := RowNote.okNote m (applyRegion text t) }]) := by
  unfold processUnit
  rw [happ]
  simp [hne]

lemma processUnit_text_eq (deps : Deps) (u : TUnit) (text : List Char)
    (h : ∀ r ∈ (processUnit deps u text).2, r.status ≠ Status.OK) :
    (processUnit deps u text).1 = text := by
  cases happ : apply_patch_advanced deps text u.en u.zh u.line u.idx u.anchor_prev
      u.anchor_next with
  | error e =>
    unfold processUnit
    rw [happ]
    cases e <;> rfl
  | ok res =>
    obtain ⟨new, m, t⟩ := res
    by_cases hne : new = text
    · rw [processUnit_noop deps u text happ hne]
    · exfalso
      rw [processUnit_okCase deps u text happ hne] at h
      refine h ⟨u.uid, Status.OK, RowNote.okNote m (applyRegion text t)⟩ ?_ rfl
      simp

lemma processUnit_error (deps : Deps) (u : TUnit) (text : List Char) (e : PErr)
    (h : apply_patch_advanced deps text u.en u.zh u.line u.idx u.anchor_prev
      u.anchor_next = Except.error e) :
    (processUnit deps u text).1 = text ∧
      ∀ r ∈ (processUnit deps u text).2,
        r.status = Status.WARN ∨ r.status = Status.FAIL := by
  unfold processUnit
  rw [h]
  cases e with
  | pythonRegion m =>
    refine ⟨rfl, ?_⟩
    intro r hr
    rcases List.mem_append.mp hr with hr1 | hr2
    · split at hr1 <;> simp at hr1
      · rw [hr1]; exact Or.inl rfl
    · rw [List.mem_singleton.mp hr2]; exact Or.inl rfl
  | notFound =>
    refine ⟨rfl, ?_⟩
    intro r hr
    rcases List.mem_append.mp hr with hr1 | hr2
    · split at hr1 <;> simp at hr1
      · rw [hr1]; exact Or.inl rfl
    · rw [List.mem_singleton.mp hr2]; exact Or.inr rfl

lemma processUnit_okRow (deps : Deps) (u : TUnit) (text : List Char)
    (h : ∃ r ∈ (processUnit deps u text).2, r.status = Status.OK) :
    ∃ new m t, apply_patch_advanced deps text u.en u.zh u.line u.idx u.anchor_prev
      u.anchor_next = Except.ok (new, m, t) := by
  obtain ⟨r, hr, hs⟩ := h
  cases happ : apply_patch_advanced deps text u.en u.zh u.line u.idx u.anchor_prev
      u.anchor_next with
  | ok res =>
    obtain ⟨new, m, t⟩ := res
    exact ⟨new, m, t, rfl⟩
  | error e =>
    exfalso
    obtain ⟨-, hall⟩ := processUnit_error deps u text e happ
    rcases hall r hr with h1 | h1 <;> rw [h1] at hs <;> simp at hs

lemma pfFold_count (deps : Deps) :
    ∀ (l : List TUnit) (st : List Char × Bool × List Row),
      ((l.foldl (pfStep deps) st).2.2).countP isOutcomeRow =
        st.2.2.countP isOutcomeRow + l.length := by
  intro l
  induction l with
  | nil => intro st; simp
  | cons u l2 ih =>
    intro st
    rw [List.foldl_cons, ih]
    simp only [pfStep, List.countP_append, processUnit_count, List.length_cons]
    omega

lemma pfFold_rows_mono (deps : Deps) :
    ∀ (l : List TUnit) (st : List Char × Bool × List Row),
      ∃ added, (l.foldl (pfStep deps) st).2.2 = st.2.2 ++ added := by
  intro l
  induction l with
  | nil => intro st; exact ⟨[], by simp⟩
  | cons u l2 ih =>
    intro st
    rw [List.foldl_cons]
    obtain ⟨added, hadd⟩ := ih (pfStep deps st u)
    refine ⟨(processUnit deps u st.1).2 ++ added, ?_⟩
    rw [hadd]
    simp [pfStep, List.append_assoc]

lemma pfFold_noOK (deps : Deps) :
    ∀ (l : List TUnit) (st : List Char × Bool × List Row),
      (∀ r ∈ (l.foldl (pfStep deps) st).2.2, r.status ≠ Status.OK) →
      (l.foldl (pfStep deps) st).1 = st.1 := by
  intro l
  induction l with
  | nil => intro st _; rfl
  | cons u l2 ih =>
    intro st hno
    rw [List.foldl_cons] at hno ⊢
    obtain ⟨added, hadd⟩ := pfFold_rows_mono deps l2 (pfStep deps st u)
    have hstep : ∀ r ∈ (processUnit deps u st.1).2, r.status ≠ Status.OK := by
      intro r hr
      refine hno r ?_
      rw [hadd]
      simp only [pfStep]
      exact List.mem_append.mpr (Or.inl (List.mem_append.mpr (Or.inr hr)))
    have htext := processUnit_text_eq deps u st.1 hstep
    have hsame : (pfStep deps st u).1 = st.1 := by
      simp only [pfStep]; exact htext
    rw [ih (pfStep deps st u) hno, hsame]


/-! ## Facts about pyFind and the anchor interval -/

lemma pyFindAux_some (pat : List Char) :
    ∀ (l : List Char) (i k : Nat), pyFindAux pat l i = some k →
      i ≤ k ∧ startsWith pat (l.drop (k - i)) = true ∧
      ∀ j, j < k - i → startsWith pat (l.drop j) = false := by
  intro l
  induction l with
  | nil =>
    intro i k h
    unfold pyFindAux at h
    split at h
    case isTrue hsw =>
      obtain rfl := Option.some.inj h
      exact ⟨Nat.le_refl _, by simpa using hsw, by intro j hj; omega⟩
    case isFalse => simp at h
  | cons c rest ih =>
    intro i k h
    unfold pyFindAux at h
    split at h
    case isTrue hsw =>
      obtain rfl := Option.some.inj h
      refine ⟨Nat.le_refl _, by simpa using hsw, ?_⟩
      intro j hj; omega
    case isFalse hsw =>
      obtain ⟨h1, h2, h3⟩ := ih (i + 1) k h
      refine ⟨by omega, ?_, ?_⟩
      · have hk : k - i = (k - (i + 1)) + 1 := by omega
        rw [hk]
        simpa using h2
      · intro j hj
        cases j with
        | zero =>
          simp only [List.drop_zero]
          exact Bool.eq_false_iff.mpr hsw
        | succ j2 =>
          have := h3 j2 (by omega)
          simpa using this

lemma pyFind_some {text pat : List Char} {k : Nat} (h : pyFind text pat = some k) :
    occursAtB text pat k = true ∧ ∀ j, j < k → occursAtB text pat j = false := by
  obtain ⟨-, h2, h3⟩ := pyFindAux_some pat text 0 k h
  simp only [Nat.sub_zero] at h2 h3
  exact ⟨h2, fun j hj => h3 j hj⟩

lemma pyFindFrom_some {text pat : List Char} {s k : Nat}
    (h : pyFindFrom text pat s = some k) :
    s ≤ k ∧ occursAtB text pat k = true ∧
      ∀ j, s ≤ j → j < k → occursAtB text pat j = false := by
  unfold pyFindFrom at h
  cases hfa : pyFindAux pat (text.drop s) 0 with
  | none => rw [hfa] at h; simp at h
  | some k0 =>
    rw [hfa] at h
    simp only [Option.map_some'] at h
    obtain rfl := Option.some.inj h
    obtain ⟨-, h2, h3⟩ := pyFindAux_some pat (text.drop s) 0 k0 hfa
    simp only [Nat.sub_zero] at h2 h3
    refine ⟨by omega, ?_, ?_⟩
    · unfold occursAtB
      have hd : text.drop (k0 + s) = (text.drop s).drop k0 := by
        rw [List.drop_drop, Nat.add_comm]
      rw [hd]
      exact h2
    · intro j hsj hjk
      have hd : text.drop j = (text.drop s).drop (j - s) := by
        rw [List.drop_drop]
        congr 1
        omega
      unfold occursAtB
      rw [hd]
      exact h3 (j - s) (by omega)

lemma anchorInterval_fst (text : List Char) (ap an : Option (List Char)) :
    (anchorInterval text ap an).1 =
      (match ap with
       | some a =>
         if !a.isEmpty then
           (match pyFind text a with
            | some i => i + a.length
            | none => 0)
         else 0
       | none => 0) := rfl

lemma anchorInterval_snd (text : List Char) (ap an : Option (List Char)) :
    (anchorInterval text ap an).2 =
      (match an with
       | some b =>
         if !b.isEmpty then
           (match pyFindFrom text b (anchorInterval text ap an).1 with
            | some j => j
            | none => text.length)
         else text.length
       | none => text.length) := rfl

/-! ## Remaining helpers -/

lemma splice_id (l : List Char) (a b : Nat) (hab : a ≤ b) :
    l.take a ++ (l.take b).drop a ++ l.drop b = l := by
  have h1 : (l.take b).take a = l.take a := by
    rw [List.take_take, min_eq_left hab]
  calc l.take a ++ (l.take b).drop a ++ l.drop b
      = (l.take b).take a ++ (l.take b).drop a ++ l.drop b := by rw [h1]
    _ = l.take b ++ l.drop b := by rw [List.take_append_drop]
    _ = l := List.take_append_drop b l

lemma tierS5_no_error {text zh en_norm : List Char} {tokens : List Token}
    {py lb sc : List (Nat × Nat)} {e : PErr}
    (h : tierS5 text zh en_norm tokens py lb sc = some (Except.error e)) : False := by
  unfold tierS5 at h
  split at h
  · simp at h
  · split at h
    · simp at h
    · split at h
      · simp at h
      · split at h
        · simp at h
        · simp at h


/-! ## Concrete instances used by counterexamples and witnesses -/

deriving instance DecidableEq for Except

/-- engine dependencies with no fuzzy scorer, no semantic signature and a
placeholder check that never fires (rapidfuzz and the signature module are
optional imports in the source). -/
def depsNone : Deps := ⟨none, none, fun _ _ => false⟩

/-- dependencies whose fuzzy scorer returns the constant 95. -/
def depsConst95 : Deps := ⟨some (fun _ _ => (95 : ℚ)), none, fun _ _ => false⟩

def c1text : List Char :=
  ['"', '"', '"', 'a', 'b', 'c', '\n', 'i', 'n', 'i', 't', ' ', 'p', 'y', 't', 'h',
   'o', 'n', ':', '\n', ' ', ' ', ' ', ' ', 'x', '\n', '"', '"', '"']

def c1en : List Char :=
  ['a', 'b', 'c', '\n', 'i', 'n', 'i', 't', ' ', 'p', 'y', 't', 'h', 'o', 'n', ':',
   '\n', ' ', ' ', ' ', ' ', 'x', '\n']

def c1unit : TUnit := ⟨['u'], c1en, ['Z'], none, none, none, none⟩

def c1tok : Token := ⟨0, 29, 3, 26, ['"', '"', '"'], true, 1, 4⟩

def c1wtext : List Char :=
  ['i', 'n', 'i', 't', ' ', 'p', 'y', 't', 'h', 'o', 'n', ':', '\n', ' ', ' ', ' ',
   ' ', 'x', ' ', '=', ' ', '"', 'o', 'k', '"', '\n']

def c1wunit : TUnit := ⟨['w'], ['o', 'k'], ['y'], none, none, none, none⟩

/-- C1 counterexample: a triple-quoted token that starts on line 1 but whose
lines 2-3 lie inside the python block span (2,3) detected on the same text is
still replaced with a recorded OK outcome, because the region classifier keys
on start_line only.  So an OK token does not always lie outside every
protected-code span. -/
theorem c1_counterexample :
    (patch_file_advanced depsNone c1text [c1unit]).2.2 =
      [⟨['u'], Status.OK, RowNote.okNote Method.s4Unique Region.root⟩] ∧
    apply_patch_advanced depsNone c1text c1unit.en c1unit.zh none none none none =
      Except.ok (['"', '"', '"', 'Z', '"', '"', '"'], Method.s4Unique, c1tok) ∧
    (detect_block_spans c1text).1 = [(2, 3)] ∧
    tokenLinesOutside c1tok [(2, 3)] = false := by
  refine ⟨by decide, by decide, by decide, by decide⟩

/-- C1 (amended): for every accepted replacement the selected token's START
line lies outside every python span (its region is not python); a unit whose
recorded outcome is OK got an accepted replacement; and whenever
apply_patch_advanced raises (python-region hit or no safe match), the text is
left unchanged for that unit and the outcome is WARN or FAIL, never OK. -/
theorem c1_amended_region_safety (deps : Deps) (u : TUnit) (text : List Char) :
    (∀ new m t,
      apply_patch_advanced deps text u.en u.zh u.line u.idx u.anchor_prev u.anchor_next =
        Except.ok (new, m, t) →
      region_of_token t (detect_block_spans (normalize_newlines text)).1
        (detect_block_spans (normalize_newlines text)).2.1
        (detect_block_spans (normalize_newlines text)).2.2 ≠ Region.python) ∧
    (∀ r ∈ (processUnit deps u text).2, r.status = Status.OK →
      ∃ new m t,
        apply_patch_advanced deps text u.en u.zh u.line u.idx u.anchor_prev
          u.anchor_next = Except.ok (new, m, t)) ∧
    (∀ e,
      apply_patch_advanced deps text u.en u.zh u.line u.idx u.anchor_prev
        u.anchor_next = Except.error e →
      (processUnit deps u text).1 = text ∧
      ∀ r ∈ (processUnit deps u text).2,
        r.status = Status.WARN ∨ r.status = Status.FAIL) := by
  refine ⟨?_, ?_, ?_⟩
  · intro new m t h
    exact (apply_ok h).2.2
  · intro r hr hs
    exact processUnit_okRow deps u text ⟨r, hr, hs⟩
  · intro e he
    exact processUnit_error deps u text e he

/-- C1 witness: a unit whose only match sits inside a python block leaves the
text unchanged. -/
theorem c1_witness : (processUnit depsNone c1wunit c1wtext).1 = c1wtext :=
  ((c1_amended_region_safety depsNone c1wunit c1wtext).2.2
    (PErr.pythonRegion Method.s4Unique) (by decide)).1

/-- C2 counterexample: escape_for_quote turns backslash-quote into
backslash-backslash-quote, whose quote is unescaped (even backslash run);
sanitize_triple_content on six quotes leaves an unbroken run of the
3-character delimiter in its output. -/
theorem c2_counterexample :
    escape_for_quote ['\\', '"'] ['"'] = ['\\', '\\', '"'] ∧
    unescapedOccAt ['\\', '\\', '"'] '"' 2 ∧
    occursB ['"', '"', '"']
      (sanitize_triple_content ['"', '"', '"', '"', '"', '"'] ['"', '"', '"']) = true := by
  refine ⟨by decide, ⟨by decide, by decide⟩, by decide⟩

/-- C2 (amended): every occurrence of the delimiter character in the
single/double escaped text is immediately preceded by a backslash, and every
occurrence of the 3-character delimiter run in the sanitized triple text is
immediately preceded by a backslash (the stronger unescaped-freedom /
run-freedom stated by the claim fails when the translation itself contains
backslashes or runs of five or more delimiters). -/
theorem c2_amended_quote_safety :
    (∀ (s : List Char) (c : Char), c ≠ '\\' →
      noBareChar c false (escape_for_quote s [c]) = true) ∧
    (∀ (s : List Char) (d : Char), d ≠ '\\' →
      noBadTriple d false (sanitize_triple_content s [d, d, d]) = true) :=
  ⟨fun s c hc => escape_for_quote_noBare s c hc,
   fun s d hd => sanitize_noBadTriple s d hd⟩

/-- C2 witness: the amended safety at the counterexample inputs. -/
theorem c2_witness :
    noBareChar '"' false (escape_for_quote ['\\', '"'] ['"']) = true ∧
    noBadTriple '"' false
      (sanitize_triple_content ['"', '"', '"', '"', '"', '"'] ['"', '"', '"']) = true :=
  ⟨c2_amended_quote_safety.1 ['\\', '"'] '"' (by decide),
   c2_amended_quote_safety.2 ['"', '"', '"', '"', '"', '"'] '"' (by decide)⟩

def c3text : List Char := ['a', '\r', '\n', '"', 'x', '"']

def c3tok : Token := ⟨2, 5, 3, 4, ['"'], false, 2, 2⟩

/-- C3 counterexample: on CRLF input the returned text is newline-normalized
everywhere, so it differs from the input outside the selected token's inner
span: no middle part can make it a take/middle/drop decomposition of the
original bytes. -/
theorem c3_counterexample :
    apply_patch_advanced depsNone c3text ['x'] ['y'] none none none none =
      Except.ok (['a', '\n', '"', 'y', '"'], Method.s4Unique, c3tok) ∧
    ∀ mid : List Char,
      (['a', '\n', '"', 'y', '"'] : List Char) ≠
        c3text.take c3tok.inner_start ++ mid ++ c3text.drop c3tok.inner_end := by
  constructor
  · decide
  · intro mid hmid
    rw [List.append_assoc] at hmid
    have h2 : ((c3text.take 3) ++ (mid ++ c3text.drop 4)).take (c3text.take 3).length =
        c3text.take 3 := List.take_left _ _
    rw [show c3tok.inner_start = 3 from rfl, show c3tok.inner_end = 4 from rfl] at hmid
    rw [← hmid] at h2
    revert h2
    decide

/-- C3 (amended): the new full text differs from the NEWLINE-NORMALIZED input
only inside the selected token's inner span: it is the normalized text's
prefix up to inner_start, then the escaped translation, then the normalized
text's suffix from inner_end, for a scanned token with well-formed inner
span. -/
theorem c3_amended_frame (deps : Deps) (text0 en zh : List Char)
    (lh ihh : Option Int) (ap an : Option (List Char)) (new : List Char)
    (m : Method) (t : Token)
    (h : apply_patch_advanced deps text0 en zh lh ihh ap an = Except.ok (new, m, t)) :
    t ∈ scan_string_literals (normalize_newlines text0) ∧
      t.inner_start ≤ t.inner_end ∧
      t.inner_end ≤ (normalize_newlines text0).length ∧
      new = (normalize_newlines text0).take t.inner_start ++
        (if t.is_triple then sanitize_triple_content zh t.quote
         else escape_for_quote zh t.quote) ++
        (normalize_newlines text0).drop t.inner_end := by
  obtain ⟨hmem, hnew, -⟩ := apply_ok h
  obtain ⟨hb1, hb2⟩ := scan_bounds _ _ hmem
  exact ⟨hmem, hb1, hb2, by rw [hnew]; rfl⟩

def c3wtok : Token := ⟨0, 3, 1, 2, ['"'], false, 1, 1⟩

/-- C3 witness: the frame decomposition at a concrete replacement. -/
theorem c3_witness :
    c3wtok ∈ scan_string_literals (normalize_newlines ['"', 'x', '"']) ∧
      c3wtok.inner_start ≤ c3wtok.inner_end ∧
      c3wtok.inner_end ≤ (normalize_newlines ['"', 'x', '"']).length ∧
      (['"', 'y', '"'] : List Char) =
        (normalize_newlines ['"', 'x', '"']).take c3wtok.inner_start ++
        (if c3wtok.is_triple then sanitize_triple_content ['y'] c3wtok.quote
         else escape_for_quote ['y'] c3wtok.quote) ++
        (normalize_newlines ['"', 'x', '"']).drop c3wtok.inner_end :=
  c3_amended_frame depsNone ['"', 'x', '"'] ['x'] ['y'] none none none none
    ['"', 'y', '"'] Method.s4Unique c3wtok (by decide)

def c4text : List Char := ['"', 'a', '\n', 'b', '"', ' ', 'c']

/-- C4: the single/double-quote scanner does NOT stop at end-of-line: on a
double-quoted literal whose closing quote sits on the next physical line, it
produces a single terminated token running across the newline (and even
records end_line = start_line), although the text continues afterwards.  This
contradicts the claimed end-of-line termination. -/
theorem c4_scanner_crosses_newline :
    scan_string_literals c4text = [⟨0, 5, 1, 4, ['"'], false, 1, 1⟩] ∧
    c4text.get? 2 = some '\n' ∧
    (2 : Nat) < 4 ∧
    (5 : Nat) < c4text.length := by
  refine ⟨by decide, by decide, by decide, by decide⟩


lemma tierS6_none_line {deps : Deps} {text zh en_norm : List Char}
    {tokens : List Token} {py lb sc : List (Nat × Nat)} :
    tierS6 deps text zh en_norm tokens py lb sc none = none := by
  unfold tierS6
  cases deps.fz <;> rfl

/-- C5: with no line/index/anchor hints and the original text matching the
inner text of two or more scanned tokens, the whole-file tier never picks one
of the tied occurrences: the unit resolves to not_found_or_ambiguous unless
the quote-class-restricted tier S5 finds a unique candidate in one quote
class (which is then the single element of its tok_by_quote list, never an
arbitrary choice between ties). -/
theorem c5_uniqueness_discipline (deps : Deps) (text0 en zh : List Char)
    (ihh : Option Int)
    (hdup : 2 ≤ ((scan_string_literals (normalize_newlines text0)).filter
      (fun t => innerNorm (normalize_newlines text0) t = normalize_newlines en)).length) :
    apply_patch_advanced deps text0 en zh none ihh none none =
      Except.error PErr.notFound ∨
    ∃ new t r,
      apply_patch_advanced deps text0 en zh none ihh none none =
        Except.ok (new, Method.s5ReplaceOnce, t) ∧
      tok_by_quote (normalize_newlines text0) (normalize_newlines en)
        (scan_string_literals (normalize_newlines text0))
        (detect_block_spans (normalize_newlines text0)).1
        (detect_block_spans (normalize_newlines text0)).2.1
        (detect_block_spans (normalize_newlines text0)).2.2 t.quote t.is_triple =
        [(t, r)] := by
  have h4 : tierS4 (normalize_newlines text0) zh (normalize_newlines en)
      (scan_string_literals (normalize_newlines text0))
      (detect_block_spans (normalize_newlines text0)).1
      (detect_block_spans (normalize_newlines text0)).2.1
      (detect_block_spans (normalize_newlines text0)).2.2 = none := by
    unfold tierS4
    rcases hfl : (scan_string_literals (normalize_newlines text0)).filter
        (fun t => innerNorm (normalize_newlines text0) t = normalize_newlines en) with
      _ | ⟨a, _ | ⟨b, tl⟩⟩
    · rfl
    · rw [hfl] at hdup; simp at hdup
    · rfl
  have happly : apply_patch_advanced deps text0 en zh none ihh none none =
      (match tierS5 (normalize_newlines text0) zh (normalize_newlines en)
          (scan_string_literals (normalize_newlines text0))
          (detect_block_spans (normalize_newlines text0)).1
          (detect_block_spans (normalize_newlines text0)).2.1
          (detect_block_spans (normalize_newlines text0)).2.2 with
       | some r => r
       | none => Except.error PErr.notFound) := by
    unfold apply_patch_advanced
    simp only []
    rw [show tierS1 (normalize_newlines text0) zh (normalize_newlines en)
        (scan_string_literals (normalize_newlines text0))
        (detect_block_spans (normalize_newlines text0)).1
        (detect_block_spans (normalize_newlines text0)).2.1
        (detect_block_spans (normalize_newlines text0)).2.2 none ihh = none from rfl]
    simp only []
    rw [show tierS2 (normalize_newlines text0) zh (normalize_newlines en)
        (scan_string_literals (normalize_newlines text0))
        (detect_block_spans (normalize_newlines text0)).1
        (detect_block_spans (normalize_newlines text0)).2.1
        (detect_block_spans (normalize_newlines text0)).2.2 none = none from rfl]
    simp only []
    rw [show tierS3 deps (normalize_newlines text0) zh en (normalize_newlines en)
        (scan_string_literals (normalize_newlines text0))
        (detect_block_spans (normalize_newlines text0)).1
        (detect_block_spans (normalize_newlines text0)).2.1
        (detect_block_spans (normalize_newlines text0)).2.2 none none = none from rfl]
    simp only []
    rw [h4]
    simp only []
    rw [show tierS6 deps (normalize_newlines text0) zh (normalize_newlines en)
        (scan_string_literals (normalize_newlines text0))
        (detect_block_spans (normalize_newlines text0)).1
        (detect_block_spans (normalize_newlines text0)).2.1
        (detect_block_spans (normalize_newlines text0)).2.2 none = none from
        tierS6_none_line]
  rcases h5 : tierS5 (normalize_newlines text0) zh (normalize_newlines en)
      (scan_string_literals (normalize_newlines text0))
      (detect_block_spans (normalize_newlines text0)).1
      (detect_block_spans (normalize_newlines text0)).2.1
      (detect_block_spans (normalize_newlines text0)).2.2 with _ | r
  · left
    rw [happly, h5]
  · rcases r with e | trip
    · exact (tierS5_no_error h5).elim
    · obtain ⟨new2, m2, t2⟩ := trip
      obtain ⟨hmem, hnew, hreg, hm, hclass⟩ := tierS5_ok h5
      subst hm
      right
      refine ⟨new2, t2, region_of_token t2
        (detect_block_spans (normalize_newlines text0)).1
        (detect_block_spans (normalize_newlines text0)).2.1
        (detect_block_spans (normalize_newlines text0)).2.2, ?_, hclass⟩
      rw [happly, h5]

def c5wtext : List Char := ['"', 'x', '"', ' ', '"', 'x', '"']

/-- C5 witness: a doubled phrase with no hints resolves to
not_found_or_ambiguous. -/
theorem c5_witness :
    apply_patch_advanced depsNone c5wtext ['x'] ['y'] none none none none =
      Except.error PErr.notFound := by
  rcases c5_uniqueness_discipline depsNone c5wtext ['x'] ['y'] none (by decide)
    with h | h
  · exact h
  · exfalso
    obtain ⟨new, t, r, hok, -⟩ := h
    rw [show apply_patch_advanced depsNone c5wtext ['x'] ['y'] none none none none =
      Except.error PErr.notFound from by decide] at hok
    exact absurd hok (by simp)

def c6text : List Char := ['"', 'a', 'b', 'c', '"']

/-- C6 counterexample: with anchor_prev inside the only token, the anchor
interval is (2,5) but tier S3 still selects the token starting at offset 0,
which is not fully inside the interval (the code only requires overlap). -/
theorem c6_counterexample :
    apply_patch_advanced depsNone c6text ['a', 'b', 'c'] ['Z'] none none
      (some ['a']) none =
      Except.ok (['"', 'Z', '"'], Method.s3Anchors,
        ⟨0, 5, 1, 4, ['"'], false, 1, 1⟩) ∧
    anchorInterval (normalize_newlines c6text) (some ['a']) none = (2, 5) ∧
    (⟨0, 5, 1, 4, ['"'], false, 1, 1⟩ : Token).start < 2 := by
  refine ⟨by decide, by decide, by decide⟩

/-- C6 (amended): every token replaced by the anchor tier OVERLAPS the anchor
interval (token start before the interval end and token end after the
interval start) rather than lying fully inside it; and on ties the
anchors-closest method picks a token whose inner midpoint distance to the
interval midpoint is minimal among all exact candidates. -/
theorem c6_amended_anchor_overlap (deps : Deps) (text0 en zh : List Char)
    (lh ihh : Option Int) (ap an : Option (List Char)) (new : List Char)
    (m : Method) (t : Token)
    (h : apply_patch_advanced deps text0 en zh lh ihh ap an = Except.ok (new, m, t))
    (hm : m = Method.s3Anchors ∨ m = Method.s3AnchorsClosest) :
    (t.start < (anchorInterval (normalize_newlines text0) ap an).2 ∧
     (anchorInterval (normalize_newlines text0) ap an).1 < t.stop) ∧
    (m = Method.s3AnchorsClosest →
      ∀ t2 ∈ (anchorRegionTokens (scan_string_literals (normalize_newlines text0))
          (anchorInterval (normalize_newlines text0) ap an).1
          (anchorInterval (normalize_newlines text0) ap an).2).filter
          (fun x => innerNorm (normalize_newlines text0) x = normalize_newlines en),
        midKey (((anchorInterval (normalize_newlines text0) ap an).1 +
          (anchorInterval (normalize_newlines text0) ap an).2) / 2) t ≤
        midKey (((anchorInterval (normalize_newlines text0) ap an).1 +
          (anchorInterval (normalize_newlines text0) ap an).2) / 2) t2) := by
  have h3 := apply_ok_s3 h hm
  obtain ⟨-, -, -, -, hover, hclosest⟩ := tierS3_ok h3
  exact ⟨hover hm, hclosest⟩

/-- C6 witness: the overlap conclusion at the counterexample input. -/
theorem c6_witness :
    (⟨0, 5, 1, 4, ['"'], false, 1, 1⟩ : Token).start <
      (anchorInterval (normalize_newlines c6text) (some ['a']) none).2 ∧
    (anchorInterval (normalize_newlines c6text) (some ['a']) none).1 <
      (⟨0, 5, 1, 4, ['"'], false, 1, 1⟩ : Token).stop :=
  (c6_amended_anchor_overlap depsNone c6text ['a', 'b', 'c'] ['Z'] none none
    (some ['a']) none ['"', 'Z', '"'] Method.s3Anchors
    ⟨0, 5, 1, 4, ['"'], false, 1, 1⟩ (by decide) (Or.inl rfl)).1

/-- C7: a fuzzy-tier acceptance carries a score of at least 92, the score is
maximal among all scored candidates of the window, and at most one scored
candidate (the accepted one) comes within 3 points of it: another candidate
at the threshold forces a margin of at least 3, and ties at the top are never
accepted. -/
theorem c7_fuzzy_margin (deps : Deps) (text0 en zh : List Char)
    (lh ihh : Option Int) (ap an : Option (List Char)) (new : List Char)
    (q : ℚ) (t : Token) (f : List Char → List Char → ℚ) (lhv : Int)
    (hfz : deps.fz = some f) (hlh : lh = some lhv)
    (h : apply_patch_advanced deps text0 en zh lh ihh ap an =
      Except.ok (new, Method.s6FuzzyNearby q, t)) :
    (q, t) ∈ s6Scores f (normalize_newlines text0) (normalize_newlines en)
        (scan_string_literals (normalize_newlines text0))
        (detect_block_spans (normalize_newlines text0)).1
        (detect_block_spans (normalize_newlines text0)).2.1
        (detect_block_spans (normalize_newlines text0)).2.2 lhv ∧
    92 ≤ q ∧
    (∀ p ∈ s6Scores f (normalize_newlines text0) (normalize_newlines en)
        (scan_string_literals (normalize_newlines text0))
        (detect_block_spans (normalize_newlines text0)).1
        (detect_block_spans (normalize_newlines text0)).2.1
        (detect_block_spans (normalize_newlines text0)).2.2 lhv, p.1 ≤ q) ∧
    (s6Scores f (normalize_newlines text0) (normalize_newlines en)
        (scan_string_literals (normalize_newlines text0))
        (detect_block_spans (normalize_newlines text0)).1
        (detect_block_spans (normalize_newlines text0)).2.1
        (detect_block_spans (normalize_newlines text0)).2.2 lhv).countP
      (fun p => decide (q - 3 < p.1)) ≤ 1 := by
  have h6 := apply_ok_s6 h
  obtain ⟨f2, lhv2, sc0, hfz2, hlh2, hm, hmem, hmax, hcount, -, -, -⟩ := tierS6_ok h6
  have hf : f2 = f := by
    rw [hfz] at hfz2
    exact (Option.some.inj hfz2).symm
  have hlv : lhv2 = lhv := by
    rw [hlh] at hlh2
    exact (Option.some.inj hlh2).symm
  have hq : q = sc0 := by
    injection hm
  subst hf
  subst hlv
  subst hq
  exact ⟨hmem, (s6Scores_mem hmem).2.2.1, hmax, hcount⟩

def c7wtext : List Char := ['"', 'h', 'e', 'l', 'l', 'o', 'o', '"']

def c7wtok : Token := ⟨0, 8, 1, 7, ['"'], false, 1, 1⟩

/-- C7 witness: the fuzzy-margin conclusion at a concrete constant-scorer
acceptance. -/
theorem c7_witness :
    ((95 : ℚ), c7wtok) ∈ s6Scores (fun _ _ => (95 : ℚ))
        (normalize_newlines c7wtext)
        (normalize_newlines ['h', 'e', 'l', 'l', 'o'])
        (scan_string_literals (normalize_newlines c7wtext))
        (detect_block_spans (normalize_newlines c7wtext)).1
        (detect_block_spans (normalize_newlines c7wtext)).2.1
        (detect_block_spans (normalize_newlines c7wtext)).2.2 1 ∧
    (92 : ℚ) ≤ 95 ∧
    (s6Scores (fun _ _ => (95 : ℚ)) (normalize_newlines c7wtext)
        (normalize_newlines ['h', 'e', 'l', 'l', 'o'])
        (scan_string_literals (normalize_newlines c7wtext))
        (detect_block_spans (normalize_newlines c7wtext)).1
        (detect_block_spans (normalize_newlines c7wtext)).2.1
        (detect_block_spans (normalize_newlines c7wtext)).2.2 1).countP
      (fun p => decide ((95 : ℚ) - 3 < p.1)) ≤ 1 := by
  have h := c7_fuzzy_margin depsConst95 c7wtext ['h', 'e', 'l', 'l', 'o'] ['y']
    (some 1) none none none ['"', 'y', '"'] 95 c7wtok (fun _ _ => (95 : ℚ)) 1
    rfl rfl (by decide)
  exact ⟨h.1, h.2.1, h.2.2.2⟩


def c8text : List Char := ['"', 'a', '\\', '"', 'b', '"']

def c8tok : Token := ⟨0, 6, 1, 5, ['"'], false, 1, 1⟩

def c8unit : TUnit := ⟨['u'], ['a', '\\', '"', 'b'], ['a', '\\', '"', 'b'],
  none, none, none, none⟩

/-- C8 counterexample: replacing a token with a translation identical to its
current inner text is NOT byte-identical when the inner text contains an
escaped delimiter: escape_for_quote re-escapes the quote, the text changes,
and the recorded outcome is OK, not NOOP. -/
theorem c8_counterexample :
    c8unit.zh = innerText c8text c8tok ∧
    apply_patch_advanced depsNone c8text c8unit.en c8unit.zh none none none none =
      Except.ok (['"', 'a', '\\', '\\', '"', 'b', '"'], Method.s4Unique, c8tok) ∧
    (patch_file_advanced depsNone c8text [c8unit]).2.2 =
      [⟨['u'], Status.OK, RowNote.okNote Method.s4Unique Region.root⟩] ∧
    (patch_file_advanced depsNone c8text [c8unit]).1 ≠ c8text := by
  refine ⟨by decide, by decide, by decide, by decide⟩

/-- C8 (amended): for a selected token whose quote sequence does not occur in
the translated text (in particular when the inner text contains no escaped
delimiter), replacing it by its own inner text yields byte-identical output
and the unit is recorded NOOP (on newline-normalized input). -/
theorem c8_amended_identity_roundtrip (deps : Deps) (u : TUnit) (text : List Char)
    (new : List Char) (m : Method) (t : Token)
    (hnorm : normalize_newlines text = text)
    (happ : apply_patch_advanced deps text u.en u.zh u.line u.idx u.anchor_prev
      u.anchor_next = Except.ok (new, m, t))
    (hzh : u.zh = innerText text t)
    (hocc : occursB t.quote u.zh = false) :
    new = text ∧
    processUnit deps u text = (text,
      (if deps.phMismatch u.en u.zh then
        [{ uid := u.uid, status := Status.WARN, note := RowNote.placeholderMismatch }]
       else []) ++
      [{ uid := u.uid, status := Status.NOOP,
         note := RowNote.unchanged (applyRegion text t) }]) := by
  obtain ⟨hmem, hnew, -⟩ := apply_ok happ
  rw [hnorm] at hmem hnew
  obtain ⟨hb1, hb2⟩ := scan_bounds _ _ hmem
  have hsafe : (if t.is_triple then sanitize_triple_content u.zh t.quote
      else escape_for_quote u.zh t.quote) = u.zh := by
    split
    · exact strReplace_id _ _ _ hocc
    · exact strReplace_id _ _ _ hocc
  have hnew2 : new = text := by
    rw [hnew]
    show text.take t.inner_start ++
      (if t.is_triple then sanitize_triple_content u.zh t.quote
       else escape_for_quote u.zh t.quote) ++ text.drop t.inner_end = text
    rw [hsafe, hzh]
    exact splice_id text t.inner_start t.inner_end hb1
  exact ⟨hnew2, processUnit_noop deps u text happ hnew2⟩

def c8wtext : List Char := ['"', 'a', 'b', '"']

def c8wtok : Token := ⟨0, 4, 1, 3, ['"'], false, 1, 1⟩

def c8wunit : TUnit := ⟨['w'], ['a', 'b'], ['a', 'b'], none, none, none, none⟩

/-- C8 witness: the identity round-trip at a delimiter-free token. -/
theorem c8_witness :
    (['"', 'a', 'b', '"'] : List Char) = c8wtext ∧
    processUnit depsNone c8wunit c8wtext = (c8wtext,
      (if depsNone.phMismatch c8wunit.en c8wunit.zh then
        [{ uid := c8wunit.uid, status := Status.WARN,
           note := RowNote.placeholderMismatch }]
       else []) ++
      [{ uid := c8wunit.uid, status := Status.NOOP,
         note := RowNote.unchanged (applyRegion c8wtext c8wtok) }]) :=
  c8_amended_identity_roundtrip depsNone c8wunit c8wtext
    ['"', 'a', 'b', '"'] Method.s4Unique c8wtok
    (by decide) (by decide) (by decide) (by decide)

/-- C9: processing a file never aborts on a failing unit: every unit of the
sorted list contributes exactly one outcome row (the outcome-row count equals
the number of units, whatever mix of OK, NOOP, WARN and FAIL occurred), and a
file in which no unit produced an accepted (OK) replacement returns its text
unchanged instead of erroring. -/
theorem c9_no_abort (deps : Deps) (text : List Char) (items : List TUnit) :
    ((patch_file_advanced deps text items).2.2).countP isOutcomeRow = items.length ∧
    ((∀ r ∈ (patch_file_advanced deps text items).2.2, r.status ≠ Status.OK) →
      (patch_file_advanced deps text items).1 = text) := by
  unfold patch_file_advanced
  simp only []
  constructor
  · rw [pfFold_count]
    simp
  · intro h
    exact pfFold_noOK deps _ _ h

def c9wtext : List Char := ['"', 'x', '"']

def c9wunit : TUnit := ⟨['w'], ['z', 'z'], ['y'], none, none, none, none⟩

/-- C9 witness: a file whose single unit fails returns unchanged text. -/
theorem c9_witness : (patch_file_advanced depsNone c9wtext [c9wunit]).1 = c9wtext :=
  (c9_no_abort depsNone c9wtext [c9wunit]).2 (by decide)

/-- C10: a supplied anchor that does not occur (or is empty/absent) is
silently ignored: the interval start falls back to 0 and the end to the text
length; an occurring anchor_prev anchors the interval start just after its
FIRST occurrence in the whole text (the least occurrence index, not the one
nearest the target), and an occurring anchor_next ends the interval at its
first occurrence at or after the start. -/
theorem c10_anchor_semantics (text : List Char) (ap an : Option (List Char)) :
    ((ap = none ∨ ap = some [] ∨ ∃ a, ap = some a ∧ pyFind text a = none) →
      (anchorInterval text ap an).1 = 0) ∧
    (∀ a k, ap = some a → a ≠ [] → pyFind text a = some k →
      (anchorInterval text ap an).1 = k + a.length ∧
      occursAtB text a k = true ∧ ∀ j, j < k → occursAtB text a j = false) ∧
    ((an = none ∨ an = some [] ∨ ∃ b, an = some b ∧
        pyFindFrom text b (anchorInterval text ap an).1 = none) →
      (anchorInterval text ap an).2 = text.length) ∧
    (∀ b k, an = some b → b ≠ [] →
      pyFindFrom text b (anchorInterval text ap an).1 = some k →
      (anchorInterval text ap an).2 = k ∧ (anchorInterval text ap an).1 ≤ k ∧
      occursAtB text b k = true ∧
      ∀ j, (anchorInterval text ap an).1 ≤ j → j < k → occursAtB text b j = false) := by
  refine ⟨?_, ?_, ?_, ?_⟩
  · rintro (rfl | rfl | ⟨a, rfl, hnf⟩)
    · rfl
    · rfl
    · rw [anchorInterval_fst]
      by_cases he : a.isEmpty
      · simp [he]
      · simp only [he, Bool.not_false, if_true]
        rw [hnf]
  · rintro a k rfl hne hf
    rw [anchorInterval_fst]
    have he : a.isEmpty = false := by
      cases a with
      | nil => exact absurd rfl hne
      | cons c r => rfl
    simp only [he, Bool.not_false, if_true]
    rw [hf]
    obtain ⟨h1, h2⟩ := pyFind_some hf
    exact ⟨rfl, h1, h2⟩
  · rintro (rfl | rfl | ⟨b, rfl, hnf⟩)
    · rfl
    · rw [anchorInterval_snd]
      simp
    · rw [anchorInterval_snd]
      by_cases he : b.isEmpty
      · simp [he]
      · simp only [he, Bool.not_false, if_true]
        rw [hnf]
  · rintro b k rfl hne hf
    have he : b.isEmpty = false := by
      cases b with
      | nil => exact absurd rfl hne
      | cons c r => rfl
    obtain ⟨h0, h1, h2⟩ := pyFindFrom_some hf
    refine ⟨?_, h0, h1, h2⟩
    rw [anchorInterval_snd]
    simp only [he, Bool.not_false, if_true]
    rw [hf]

def c10wtext : List Char := ['x', 'a', 'y', 'a', 'z']

/-- C10 witness: with anchor_prev occurring twice, the interval starts after
the first occurrence, and ends at the first occurrence of anchor_next. -/
theorem c10_witness :
    (anchorInterval c10wtext (some ['a']) (some ['z'])).1 = 2 ∧
    (anchorInterval c10wtext (some ['a']) (some ['z'])).2 = 4 := by
  constructor
  · have h := (c10_anchor_semantics c10wtext (some ['a']) (some ['z'])).2.1
      ['a'] 1 rfl (by decide) (by decide)
    simpa using h.1
  · have h := (c10_anchor_semantics c10wtext (some ['a']) (some ['z'])).2.2.2
      ['z'] 4 rfl (by decide) (by decide)
    exact h.1
end Patch
